import Mathlib

set_option maxRecDepth 8192

/-!
Verification development for the virtual-memory mapping core of the SOS
kernel fork (four-level x86_64 page tables).

The mapper logic is embedded from `paging/src/arch/x86_64/mod.rs`
(`ActivePML4::translate / translate_page / map / identity_map / unmap`,
`ActivePageTable::using / replace_with`, `InactivePageTable::new`,
`kernel_remap`) and the index arithmetic from `src/memory/mod.rs`
(`VAddr::pml4_index / pdpt_index / pd_index / pt_index`).

Types whose defining files are not part of the sources (the `table.rs`
entry/table module, the memory-crate page types, the frame allocator, the
TLB and cr3 primitives, the temporary-page module and the boot parameters)
are modelled from the specification; each such definition carries a doc
comment starting with `Modelled from the spec:`.

Physical memory is modelled as a map from frame numbers to 512-entry
tables; the recursive self-mapping trick is modelled by resolving the
fixed recursive virtual address through the active top-level table's
slot 511 (`recResolve`).
-/

namespace Paging

/-- Number of bits in a page offset (source: `PAGE_SHIFT`). -/
def PAGE_SHIFT : Nat := 12

/-- Size of a page in bytes (source: `PAGE_SIZE = 1 << PAGE_SHIFT`). -/
def PAGE_SIZE : Nat := 1 <<< PAGE_SHIFT

/-- A virtual address is a machine-sized unsigned integer (source: `VAddr`). -/
abbrev VAddr := Nat

/-- A physical address (source: `PAddr`). -/
abbrev PAddr := Nat

/-- Index in the PML4 table for this address (source: `VAddr::pml4_index`). -/
def VAddr.pml4_index (a : VAddr) : Nat := (a >>> 39) &&& 0b111111111

/-- Index in the PDPT table for this address (source: `VAddr::pdpt_index`). -/
def VAddr.pdpt_index (a : VAddr) : Nat := (a >>> 30) &&& 0b111111111

/-- Index in the PD table for this address (source: `VAddr::pd_index`). -/
def VAddr.pd_index (a : VAddr) : Nat := (a >>> 21) &&& 0b111111111

/-- Index in the PT table for this address (source: `VAddr::pt_index`). -/
def VAddr.pt_index (a : VAddr) : Nat := (a >>> 12) &&& 0b111111111

/-- Modelled from the spec: `VirtualPage` (memory crate, not in sources) is a
page-aligned unit identified by its page number (address divided by the page
size, 4096 bytes). -/
structure VirtualPage where
  number : Nat
deriving DecidableEq

/-- Modelled from the spec: `PhysicalPage` (a frame) is identified by its page
number (address divided by the page size). -/
structure PhysicalPage where
  number : Nat
deriving DecidableEq

/-- Modelled from the spec: `Page::containing` returns the page containing the
given address. -/
def VirtualPage.containing (addr : VAddr) : VirtualPage := ⟨addr / PAGE_SIZE⟩

/-- Modelled from the spec: base address where a virtual page starts. -/
def VirtualPage.base (p : VirtualPage) : VAddr := p.number * PAGE_SIZE

/-- Modelled from the spec: the frame containing a physical address. -/
def PhysicalPage.containing (addr : PAddr) : PhysicalPage := ⟨addr / PAGE_SIZE⟩

/-- Modelled from the spec: base address where a frame starts
(frame number shifted left by `PAGE_SHIFT`). -/
def PhysicalPage.base_addr (f : PhysicalPage) : PAddr := f.number * PAGE_SIZE

/-- PML4 slot a virtual page routes through (`PML4Level::index_of`,
computed from the page's base address). -/
def VirtualPage.pml4_index (p : VirtualPage) : Nat := VAddr.pml4_index p.base

/-- PDPT slot a virtual page routes through (`PDPTLevel::index_of`). -/
def VirtualPage.pdpt_index (p : VirtualPage) : Nat := VAddr.pdpt_index p.base

/-- PD slot a virtual page routes through (`PDLevel::index_of`). -/
def VirtualPage.pd_index (p : VirtualPage) : Nat := VAddr.pd_index p.base

/-- PT slot a virtual page routes through (`PTLevel::index_of`). -/
def VirtualPage.pt_index (p : VirtualPage) : Nat := VAddr.pt_index p.base

/-- Modelled from the spec: entry flag bits (`table.rs` is not in the
sources).  Only the flags the embedded operations inspect are kept:
`PRESENT`, `WRITABLE` and `HUGE`. -/
structure EntryFlags where
  present : Bool
  writable : Bool
  huge : Bool
deriving DecidableEq

/-- The `WRITABLE` flag constant. -/
def WRITABLE : EntryFlags := ⟨false, true, false⟩

/-- The `PRESENT` flag constant. -/
def PRESENT : EntryFlags := ⟨true, false, false⟩

/-- The union `flags | PRESENT` used by `map` when writing a leaf entry. -/
def EntryFlags.withPresent (f : EntryFlags) : EntryFlags := ⟨true, f.writable, f.huge⟩

/-- Modelled from the spec: one 64-bit page-table entry holding a physical
frame number plus flag bits (`table.rs` is not in the sources). -/
structure Entry where
  frame : Nat
  flags : EntryFlags
deriving DecidableEq

/-- The all-zero (unused) entry, the result of `Entry::set_unused`. -/
def Entry.cleared : Entry := ⟨0, ⟨false, false, false⟩⟩

/-- Modelled from the spec: `Entry::set(frame, flags)` stores exactly the
given frame and flags. -/
def Entry.set (frame : Nat) (flags : EntryFlags) : Entry := ⟨frame, flags⟩

/-- Modelled from the spec: `Entry::is_unused` — the entry is all zero. -/
def Entry.is_unused (e : Entry) : Bool := decide (e = Entry.cleared)

/-- Modelled from the spec: `Entry::get_frame` returns the pointed frame when
the entry is present. -/
def Entry.get_frame (e : Entry) : Option Nat :=
  if e.flags.present then some e.frame else none

/-- Modelled from the spec: `Entry::do_huge(offset)` — if the entry is marked
huge, the resulting frame is the entry's start frame plus the residual
lower-level offset; otherwise no frame. -/
def Entry.do_huge (e : Entry) (offset : Nat) : Option Nat :=
  if e.flags.huge then (e.get_frame).map (fun f => f + offset) else none

/-- Modelled from the spec: a page table is an array of 512 entries (indices
outside 0..511 are never produced by the 9-bit extraction). -/
def Table := Nat → Entry

/-- Modelled from the spec: `Table::zero` clears all entries. -/
def Table.zeroed : Table := fun _ => Entry.cleared

/-- Functional update of one entry of a table. -/
def Table.setEntry (t : Table) (i : Nat) (e : Entry) : Table :=
  fun j => if j = i then e else t j

/-- Physical memory, as the table stored in each physical frame.  This models
the recursive-mapping convention: every sub-table's backing frame is
addressable, so descending the hierarchy is indexing `Memory` at the child's
frame number. -/
def Memory := Nat → Table

/-- Replace the whole table stored in frame `f`. -/
def Memory.writeTable (m : Memory) (f : Nat) (t : Table) : Memory :=
  fun g => if g = f then t else m g

/-- Write one entry of the table stored in frame `f`. -/
def Memory.writeEntry (m : Memory) (f i : Nat) (e : Entry) : Memory :=
  m.writeTable f ((m f).setEntry i e)

/-- Modelled from the spec: the external `FrameAllocator` capability —
`allocate` hands out the next free frame or reports exhaustion,
`deallocate` receives a freed frame.  `deallocs` records every frame ever
passed to `deallocate`, in order. -/
structure FrameAllocator where
  free : List Nat
  deallocs : List Nat
deriving DecidableEq

/-- Modelled from the spec: `FrameAllocator::allocate`. -/
def FrameAllocator.allocate (a : FrameAllocator) : Option (Nat × FrameAllocator) :=
  match a.free with
  | [] => none
  | f :: rest => some (f, ⟨rest, a.deallocs⟩)

/-- Modelled from the spec: `FrameAllocator::deallocate` — the frame is
recorded as returned to the allocator. -/
def FrameAllocator.deallocate (a : FrameAllocator) (f : Nat) : FrameAllocator :=
  ⟨a.free, a.deallocs ++ [f]⟩

/-- The mapping error type (source: `MapErr`, carried messages kept as the
string literals appearing at the construction sites in `mod.rs`). -/
inductive MapErr where
  | alreadyInUse (message : String) (page : VirtualPage) (frame : PhysicalPage)
  | alloc (message : String) (page : VirtualPage)
  | other (message : String) (page : VirtualPage) (cause : String)
  | noPage (message : String) (cause : String)
deriving DecidableEq

/-- Modelled from the spec: a TLB flush event — `invlpg` for one page
(source: `page.invlpg()`) or a full flush (source: `tlb::flush_all`). -/
inductive TlbFlush where
  | page (p : VirtualPage)
  | all
deriving DecidableEq

/-- The mutable state a mapper operation acts on: physical memory, the
external frame allocator, and the log of TLB flushes issued. -/
structure MapperState where
  mem : Memory
  alloc : FrameAllocator
  tlb : List TlbFlush

/-- Modelled from the spec: `Table::next_table(index)` — the frame of the
sub-table reachable through a present, non-huge entry at `index`; `none` if
the entry is unused or represents a huge page (`table.rs` is not in the
sources). -/
def next_table (m : Memory) (tf i : Nat) : Option Nat :=
  let e := m tf i
  if e.flags.present && !e.flags.huge then some e.frame else none

/-- The directory descent `pml4.next_table_mut(page) → pdpt → pd` performed
by `unmap` (source lines 238-246): the frame of the leaf-level page table for
`page`, or `none` if a directory level is absent. -/
def walk3 (m : Memory) (root : Nat) (p : VirtualPage) : Option Nat :=
  (next_table m root p.pml4_index).bind fun f1 =>
    (next_table m f1 p.pdpt_index).bind fun f2 =>
      next_table m f2 p.pd_index

/-- `ActivePML4::translate_page` (source lines 144-163): descend
PDPT → PD → PT and read the leaf entry's frame; on failure fall back to the
huge-page closure, which tries the PDPT entry with the residual PD+PT offset
and then the PD entry with the residual PT offset. -/
def translate_page (m : Memory) (root : Nat) (p : VirtualPage) : Option Nat :=
  let pdpt := next_table m root p.pml4_index
  let huge_page := fun (_ : Unit) =>
    pdpt.bind fun f1 =>
      Option.orElse ((m f1 p.pdpt_index).do_huge (p.pd_index + p.pt_index))
        (fun _ =>
          (next_table m f1 p.pdpt_index).bind fun f2 =>
            (m f2 p.pd_index).do_huge p.pt_index)
  Option.orElse
    ((pdpt.bind fun f1 =>
      (next_table m f1 p.pdpt_index).bind fun f2 =>
        (next_table m f2 p.pd_index).bind fun f3 =>
          (m f3 p.pt_index).get_frame))
    huge_page

/-- `ActivePML4::translate` (source lines 138-142): translate the containing
page and add the in-page offset to the frame's `number` field.  NOTE: the
source adds the byte offset to the frame *number* (`frame.number + offset`),
not to the frame's base address. -/
def translate (m : Memory) (root : Nat) (vaddr : VAddr) : Option PAddr :=
  let offset := vaddr % PAGE_SIZE
  (translate_page m root (VirtualPage.containing vaddr)).map
    (fun frameNumber => frameNumber + offset)

/-- Modelled from the spec: `Table::create_next(page, alloc)` — return the
existing sub-table frame through a present non-huge entry; if the entry is
unused, request one frame from the allocator, mark the entry
present+writable, zero-fill the new table and return it; fail on a huge
entry or when the allocator is exhausted (`table.rs` is not in the
sources). -/
def create_next (ms : MapperState) (tf i : Nat) (page : VirtualPage) :
    Except MapErr Nat × MapperState :=
  let e := ms.mem tf i
  if e.flags.present && !e.flags.huge then
    (Except.ok e.frame, ms)
  else if e.flags.huge then
    (Except.error (MapErr.noPage ("create next table") ("huge directory entry")), ms)
  else
    match ms.alloc.allocate with
    | none => (Except.error (MapErr.alloc ("create next table") page), ms)
    | some (f, alloc1) =>
      let m1 := ms.mem.writeEntry tf i (Entry.set f ⟨true, true, false⟩)
      let m2 := m1.writeTable f Table.zeroed
      (Except.ok f, ⟨m2, alloc1, ms.tlb⟩)

/-- `ActivePML4::map` (source lines 173-203): get or create the PDPT, PD and
PT tables for the page, then require the leaf entry to be unused before
writing frame + flags + PRESENT; otherwise return `AlreadyInUse`. -/
def map (ms : MapperState) (root : Nat) (page : VirtualPage)
    (frame : PhysicalPage) (flags : EntryFlags) :
    Except MapErr Unit × MapperState :=
  match create_next ms root page.pml4_index page with
  | (Except.error e, ms1) => (Except.error e, ms1)
  | (Except.ok pdptF, ms1) =>
    match create_next ms1 pdptF page.pdpt_index page with
    | (Except.error e, ms2) => (Except.error e, ms2)
    | (Except.ok pdF, ms2) =>
      match create_next ms2 pdF page.pd_index page with
      | (Except.error e, ms3) => (Except.error e, ms3)
      | (Except.ok ptF, ms3) =>
        if (ms3.mem ptF page.pt_index).is_unused then
          (Except.ok (),
           ⟨ms3.mem.writeEntry ptF page.pt_index
              (Entry.set frame.number flags.withPresent),
            ms3.alloc, ms3.tlb⟩)
        else
          (Except.error (MapErr.alreadyInUse ("map frame") page frame), ms3)

/-- `ActivePML4::identity_map` (source lines 205-213): map the page whose
address equals the frame's base address to that frame. -/
def identity_map (ms : MapperState) (root : Nat) (frame : PhysicalPage)
    (flags : EntryFlags) : Except MapErr Unit × MapperState :=
  map ms root (VirtualPage.containing frame.base_addr) frame flags

/-- `ActivePML4::unmap` (source lines 233-274): descend to the leaf table
(error `huge pages not supported` if a directory is absent), require a
pointed frame (error `it was not mapped` otherwise), mark the entry unused,
flush the TLB entry for the page, and deallocate the frame. -/
def unmap (ms : MapperState) (root : Nat) (page : VirtualPage) :
    Except MapErr Unit × MapperState :=
  match walk3 ms.mem root page with
  | none =>
    (Except.error (MapErr.other ("unmap") page ("huge pages not supported")), ms)
  | some ptF =>
    match (ms.mem ptF page.pt_index).get_frame with
    | none =>
      (Except.error (MapErr.other ("unmap") page ("it was not mapped")), ms)
    | some frame =>
      (Except.ok (),
       ⟨ms.mem.writeEntry ptF page.pt_index Entry.cleared,
        ms.alloc.deallocate frame,
        ms.tlb ++ [TlbFlush.page page]⟩)

/-- One step of resolving the recursive virtual address: follow slot 511 of
the table stored in frame `f`. -/
def recStep (m : Memory) (f : Nat) : Nat := (m f 511).frame

/-- Modelled from the spec: the frame the fixed recursive PML4 pointer
(`PML4_PTR`) resolves to — four page-walk steps through slot 511 starting at
the frame in the base-table register. -/
def recResolve (m : Memory) (cr3 : Nat) : Nat :=
  recStep m (recStep m (recStep m (recStep m cr3)))

/-- `ActivePageTable::using` (source lines 54-93): back up the current PML4
frame from cr3, bind the temporary page to it, redirect the active table's
recursive slot 511 to the new table's frame, flush, run the closure, restore
slot 511 of the original table (reached through the temporary page) to the
saved frame, flush, unbind the temporary page, and return the closure's
result. -/
def usingTable (ms : MapperState) (cr3 : Nat) (newFrame : Nat)
    (temp : VirtualPage) (f : MapperState → Except MapErr Unit × MapperState) :
    Except MapErr Unit × MapperState :=
  let prev := cr3
  match map ms (recResolve ms.mem cr3) temp ⟨prev⟩ WRITABLE with
  | (Except.error e, ms1) => (Except.error e, ms1)
  | (Except.ok _, ms1) =>
    let ms2 : MapperState :=
      ⟨ms1.mem.writeEntry (recResolve ms1.mem cr3) 511
         (Entry.set newFrame ⟨true, true, false⟩),
       ms1.alloc, ms1.tlb ++ [TlbFlush.all]⟩
    let fr := f ms2
    let ms3 := fr.2
    let ms4 : MapperState :=
      ⟨ms3.mem.writeEntry prev 511 (Entry.set prev ⟨true, true, false⟩),
       ms3.alloc, ms3.tlb ++ [TlbFlush.all]⟩
    match unmap ms4 (recResolve ms4.mem cr3) temp with
    | (Except.error e, ms5) => (Except.error e, ms5)
    | (Except.ok _, ms5) => (fr.1, ms5)

/-- `InactivePageTable::new` (source lines 307-326): bind the temporary page
to the new table's frame, zero-fill that frame, write its self-referential
slot 511, and unbind the temporary page. -/
def inactiveNew (ms : MapperState) (cr3 : Nat) (frame : Nat)
    (temp : VirtualPage) : Except MapErr Unit × MapperState :=
  match map ms (recResolve ms.mem cr3) temp ⟨frame⟩ WRITABLE with
  | (Except.error e, ms1) => (Except.error e, ms1)
  | (Except.ok _, ms1) =>
    let m1 := ms1.mem.writeTable frame Table.zeroed
    let m2 := m1.writeEntry frame 511 (Entry.set frame ⟨true, true, false⟩)
    match unmap ⟨m2, ms1.alloc, ms1.tlb⟩ (recResolve m2 cr3) temp with
    | (Except.error e, ms2) => (Except.error e, ms2)
    | (Except.ok _, ms2) => (Except.ok (), ms2)

/-- Modelled from the spec: one boot-image ELF section record — start
address, end address, writable attribute, allocated-in-memory attribute
(the ELF metadata reader is consumed at its interface only). -/
structure KSection where
  addr : Nat
  endAddr : Nat
  writable : Bool
  allocated : Bool
deriving DecidableEq

/-- Modelled from the spec: `EntryFlags::from(section)` — permission flags
derived from the section's attributes. -/
def EntryFlags.fromSection (s : KSection) : EntryFlags := ⟨false, s.writable, false⟩

/-- Modelled from the spec: the boot-time `InitParams` consumed by
`kernel_remap` — the ELF sections and the multiboot info address range. -/
structure InitParams where
  sections : List KSection
  multibootStart : Nat
  multibootEnd : Nat

/-- Modelled from the spec: the frame numbers of the half-open frame range
`startF .. endF` iterated by a `PageRange`. -/
def frameRange (startF endF : Nat) : List Nat :=
  (List.range (endF - startF)).map (fun k => startF + k)

/-- Identity-map each frame of a list in order, stopping at the first error
(the `for frame in start_frame .. end_frame` loops of `kernel_remap`). -/
def identityMapFrames (ms : MapperState) (cr3 : Nat) (frames : List Nat)
    (flags : EntryFlags) : Except MapErr Unit × MapperState :=
  match frames with
  | [] => (Except.ok (), ms)
  | fr :: rest =>
    match identity_map ms (recResolve ms.mem cr3) ⟨fr⟩ flags with
    | (Except.error e, ms1) => (Except.error e, ms1)
    | (Except.ok _, ms1) => identityMapFrames ms1 cr3 rest flags

/-- The ELF-section loop of the `kernel_remap` closure (source lines
405-425): for each section, require a page-aligned start address (else the
`NoPage` error) and identity-map its covering frames with flags derived from
the section. -/
def remapSections (ms : MapperState) (cr3 : Nat) (secs : List KSection) :
    Except MapErr Unit × MapperState :=
  match secs with
  | [] => (Except.ok (), ms)
  | s :: rest =>
    if s.addr % PAGE_SIZE = 0 then
      match identityMapFrames ms cr3
              (frameRange (PhysicalPage.containing s.addr).number
                          (PhysicalPage.containing s.endAddr).number)
              (EntryFlags.fromSection s) with
      | (Except.error e, ms1) => (Except.error e, ms1)
      | (Except.ok _, ms1) => remapSections ms1 cr3 rest
    else
      (Except.error (MapErr.noPage ("identity map section")
        ("the start address was not page aligned")), ms)

/-- The closure passed to `using` by `kernel_remap` (source lines 397-443):
remap the allocated ELF sections, identity-map the VGA buffer frame with
WRITABLE, and identity-map the multiboot info frame range with PRESENT. -/
def remapClosure (cr3 : Nat) (params : InitParams) :
    MapperState → Except MapErr Unit × MapperState :=
  fun ms =>
    match remapSections ms cr3 (params.sections.filter (fun s => s.allocated)) with
    | (Except.error e, ms1) => (Except.error e, ms1)
    | (Except.ok _, ms1) =>
      match identity_map ms1 (recResolve ms1.mem cr3)
              (PhysicalPage.containing 0xb8000) WRITABLE with
      | (Except.error e, ms2) => (Except.error e, ms2)
      | (Except.ok _, ms2) =>
        identityMapFrames ms2 cr3
          (frameRange (PhysicalPage.containing params.multibootStart).number
                      (PhysicalPage.containing params.multibootEnd).number)
          PRESENT

/-- The fixed page number of the temporary page used by `kernel_remap`
(source: `TEMP_PAGE_NUMBER = 0xfacade`). -/
def TEMP_PAGE_NUMBER : Nat := 0xfacade

/-- Everything `kernel_remap` does before the table switch (source lines
374-443): create the temporary page, allocate the new top-level frame, turn
it into a fresh inactive table, and populate it through `using`.  Returns
the new table's frame on success. -/
def kernel_remap_build (params : InitParams) (cr3 : Nat) (ms : MapperState) :
    Except MapErr Nat × MapperState :=
  let temp : VirtualPage := ⟨TEMP_PAGE_NUMBER⟩
  match ms.alloc.allocate with
  | none => (Except.error (MapErr.alloc ("create the new page table") temp), ms)
  | some (newFrame, alloc1) =>
    match inactiveNew ⟨ms.mem, alloc1, ms.tlb⟩ cr3 newFrame temp with
    | (Except.error e, ms1) => (Except.error e, ms1)
    | (Except.ok _, ms1) =>
      match usingTable ms1 cr3 newFrame temp (remapClosure cr3 params) with
      | (Except.error e, ms2) => (Except.error e, ms2)
      | (Except.ok _, ms2) => (Except.ok newFrame, ms2)

/-- `kernel_remap` (source lines 368-456): run the build phase; on success
switch the base-table register to the new table (`replace_with`) and unmap
the page covering the old top-level frame as a guard page.  The returned
`Nat` is the frame installed in the base-table register when the procedure
returns. -/
def kernel_remap (params : InitParams) (cr3 : Nat) (ms : MapperState) :
    Except MapErr Unit × Nat × MapperState :=
  match kernel_remap_build params cr3 ms with
  | (Except.error e, ms1) => (Except.error e, cr3, ms1)
  | (Except.ok newFrame, ms1) =>
    let oldPage := VirtualPage.containing (cr3 * PAGE_SIZE)
    match unmap ms1 (recResolve ms1.mem newFrame) oldPage with
    | (Except.error e, ms2) => (Except.error e, newFrame, ms2)
    | (Except.ok _, ms2) => (Except.ok (), newFrame, ms2)

/-- A mapper operation performed on the active table after an initial `map`:
either another `map` or an `unmap`. -/
inductive Op where
  | map (p : VirtualPage) (frame : PhysicalPage) (flags : EntryFlags)
  | unmap (p : VirtualPage)
deriving DecidableEq

/-- The page an operation acts on. -/
def Op.page : Op → VirtualPage
  | Op.map p _ _ => p
  | Op.unmap p => p

/-- Run one operation against the active table, keeping whatever state it
leaves behind whether it succeeds or fails. -/
def stepOp (root : Nat) (ms : MapperState) : Op → MapperState
  | Op.map p frame flags => (map ms root p frame flags).2
  | Op.unmap p => (unmap ms root p).2

/-- Run a list of operations in order. -/
def runOps (root : Nat) (ms : MapperState) : List Op → MapperState
  | [] => ms
  | op :: ops => runOps root (stepOp root ms op) ops

/-- The frames pointed to by the present non-huge entries of the table in
frame `tf` at slot indices below `c` — the sub-tables reachable one level
down through those slots. -/
def childFrames (m : Memory) (tf c : Nat) : List Nat :=
  (List.range c).filterMap (next_table m tf)

/-- How many slots of a depth-`k` table the reachability analysis descends
into: slot 511 of the root is the recursive self-reference mandated by the
spec for every active table, so it is not part of the translation tree and
the analysis walks root slots 0–510 only; tables below the root use all
512 slots. -/
def levelBound : Nat → Nat
  | 0 => 511
  | _ + 1 => 512

/-- The table frames reachable at depth `k` below the root (depth 0 is the
root itself, depth 3 the leaf-level page tables), with multiplicity; the
root's recursive slot 511 is not descended into. -/
def levelList (m : Memory) (root : Nat) : Nat → List Nat
  | 0 => [root]
  | k + 1 => (levelList m root k).flatMap
      (fun g => childFrames m g (levelBound k))

/-- All table frames of the four-level hierarchy (outside the root's
recursive slot 511), with multiplicity. -/
def tableFrames (m : Memory) (root : Nat) : List Nat :=
  levelList m root 0 ++ levelList m root 1 ++ levelList m root 2 ++
    levelList m root 3

/-- The hierarchy rooted at `root` is a tree outside the root's recursive
slot: no frame reachable through root slots 0–510 serves as two different
tables (no aliasing between levels or within a level). Slot 511 of the
root is excluded because the spec reserves it for the self-reference of
every active table, which deliberately aliases the root. -/
def TreeWF (m : Memory) (root : Nat) : Prop := (tableFrames m root).Nodup

/-- The allocator's free frames are distinct and none of them is already in
use as a table frame of the active hierarchy (interface contract of the
external frame allocator). -/
def FreshFree (m : Memory) (root : Nat) (free : List Nat) : Prop :=
  free.Nodup ∧ ∀ f ∈ free, f ∉ tableFrames m root

/-- The four-level path of page `p` is fully built and its leaf entry is
present with frame `F`. -/
def PathInv (m : Memory) (root : Nat) (p : VirtualPage) (F : Nat) : Prop :=
  ∃ f1 f2 f3,
    next_table m root p.pml4_index = some f1 ∧
    next_table m f1 p.pdpt_index = some f2 ∧
    next_table m f2 p.pd_index = some f3 ∧
    (m f3 p.pt_index).flags.present = true ∧
    (m f3 p.pt_index).frame = F

theorem PAGE_SIZE_eq : PAGE_SIZE = 4096 := rfl

theorem VAddr.pml4_index_eq (a : VAddr) :
    VAddr.pml4_index a = a / 2 ^ 39 % 2 ^ 9 := by
  unfold VAddr.pml4_index
  rw [Nat.shiftRight_eq_div_pow]
  have h : (0b111111111 : Nat) = 2 ^ 9 - 1 := by norm_num
  rw [h, Nat.and_pow_two_sub_one_eq_mod]

theorem VAddr.pdpt_index_eq (a : VAddr) :
    VAddr.pdpt_index a = a / 2 ^ 30 % 2 ^ 9 := by
  unfold VAddr.pdpt_index
  rw [Nat.shiftRight_eq_div_pow]
  have h : (0b111111111 : Nat) = 2 ^ 9 - 1 := by norm_num
  rw [h, Nat.and_pow_two_sub_one_eq_mod]

theorem VAddr.pd_index_eq (a : VAddr) :
    VAddr.pd_index a = a / 2 ^ 21 % 2 ^ 9 := by
  unfold VAddr.pd_index
  rw [Nat.shiftRight_eq_div_pow]
  have h : (0b111111111 : Nat) = 2 ^ 9 - 1 := by norm_num
  rw [h, Nat.and_pow_two_sub_one_eq_mod]

theorem VAddr.pt_index_eq (a : VAddr) :
    VAddr.pt_index a = a / 2 ^ 12 % 2 ^ 9 := by
  unfold VAddr.pt_index
  rw [Nat.shiftRight_eq_div_pow]
  have h : (0b111111111 : Nat) = 2 ^ 9 - 1 := by norm_num
  rw [h, Nat.and_pow_two_sub_one_eq_mod]

theorem VAddr.pml4_index_lt (a : VAddr) : VAddr.pml4_index a < 512 := by
  rw [VAddr.pml4_index_eq]; exact Nat.mod_lt _ (by norm_num)

theorem VAddr.pdpt_index_lt (a : VAddr) : VAddr.pdpt_index a < 512 := by
  rw [VAddr.pdpt_index_eq]; exact Nat.mod_lt _ (by norm_num)

theorem VAddr.pd_index_lt (a : VAddr) : VAddr.pd_index a < 512 := by
  rw [VAddr.pd_index_eq]; exact Nat.mod_lt _ (by norm_num)

theorem VAddr.pt_index_lt (a : VAddr) : VAddr.pt_index a < 512 := by
  rw [VAddr.pt_index_eq]; exact Nat.mod_lt _ (by norm_num)

theorem VirtualPage.pml4_index_div (p : VirtualPage) :
    p.pml4_index = p.number / 2 ^ 27 % 512 := by
  show VAddr.pml4_index (p.number * PAGE_SIZE) = _
  rw [VAddr.pml4_index_eq, PAGE_SIZE_eq]
  omega

theorem VirtualPage.pdpt_index_div (p : VirtualPage) :
    p.pdpt_index = p.number / 2 ^ 18 % 512 := by
  show VAddr.pdpt_index (p.number * PAGE_SIZE) = _
  rw [VAddr.pdpt_index_eq, PAGE_SIZE_eq]
  omega

theorem VirtualPage.pd_index_div (p : VirtualPage) :
    p.pd_index = p.number / 2 ^ 9 % 512 := by
  show VAddr.pd_index (p.number * PAGE_SIZE) = _
  rw [VAddr.pd_index_eq, PAGE_SIZE_eq]
  omega

theorem VirtualPage.pt_index_div (p : VirtualPage) :
    p.pt_index = p.number % 512 := by
  show VAddr.pt_index (p.number * PAGE_SIZE) = _
  rw [VAddr.pt_index_eq, PAGE_SIZE_eq]
  omega

theorem VirtualPage.pml4_index_bound (p : VirtualPage) : p.pml4_index < 512 :=
  VAddr.pml4_index_lt _

theorem VirtualPage.pdpt_index_bound (p : VirtualPage) : p.pdpt_index < 512 :=
  VAddr.pdpt_index_lt _

theorem VirtualPage.pd_index_bound (p : VirtualPage) : p.pd_index < 512 :=
  VAddr.pd_index_lt _

theorem VirtualPage.pt_index_bound (p : VirtualPage) : p.pt_index < 512 :=
  VAddr.pt_index_lt _

/-- Two pages with numbers below 2^36 that route through the same slot at
all four levels are the same page. -/
theorem VirtualPage.eq_of_indices_eq {p q : VirtualPage}
    (hp : p.number < 2 ^ 36) (hq : q.number < 2 ^ 36)
    (h4 : p.pml4_index = q.pml4_index) (h3 : p.pdpt_index = q.pdpt_index)
    (h2 : p.pd_index = q.pd_index) (h1 : p.pt_index = q.pt_index) :
    p = q := by
  cases p with
  | mk pn =>
    cases q with
    | mk qn =>
      simp only [VirtualPage.pml4_index_div, VirtualPage.pdpt_index_div,
        VirtualPage.pd_index_div, VirtualPage.pt_index_div] at h4 h3 h2 h1
      have hp1 : pn < 2 ^ 36 := hp
      have hq1 : qn < 2 ^ 36 := hq
      have : pn = qn := by omega
      simp [this]

/-- C9: the four index-extraction functions return bits 39-47, 30-38, 21-29
and 12-20 of a virtual address respectively (each a 9-bit value in 0-511);
for virtual address 0 all four indices are 0; for address 512 * 4096 the
PD index is 1 and the PT index is 0; and for address 300 * 512 * 4096 the
PD index is 300. -/
theorem vaddr_index_extraction :
    (∀ a : VAddr,
      VAddr.pml4_index a = a / 2 ^ 39 % 2 ^ 9 ∧
      VAddr.pdpt_index a = a / 2 ^ 30 % 2 ^ 9 ∧
      VAddr.pd_index a = a / 2 ^ 21 % 2 ^ 9 ∧
      VAddr.pt_index a = a / 2 ^ 12 % 2 ^ 9 ∧
      VAddr.pml4_index a < 512 ∧ VAddr.pdpt_index a < 512 ∧
      VAddr.pd_index a < 512 ∧ VAddr.pt_index a < 512) ∧
    (VAddr.pml4_index 0 = 0 ∧ VAddr.pdpt_index 0 = 0 ∧
      VAddr.pd_index 0 = 0 ∧ VAddr.pt_index 0 = 0) ∧
    (VAddr.pd_index (512 * 4096) = 1 ∧ VAddr.pt_index (512 * 4096) = 0) ∧
    VAddr.pd_index (300 * 512 * 4096) = 300 := by
  refine ⟨fun a => ⟨VAddr.pml4_index_eq a, VAddr.pdpt_index_eq a,
    VAddr.pd_index_eq a, VAddr.pt_index_eq a, VAddr.pml4_index_lt a,
    VAddr.pdpt_index_lt a, VAddr.pd_index_lt a, VAddr.pt_index_lt a⟩,
    ?_, ?_, ?_⟩ <;> decide

/-- State for the identity-map read-back scenario: an all-unused hierarchy
rooted at frame 100 and an allocator holding frames 1, 2 and 3. -/
def c1State : MapperState := ⟨fun _ => Table.zeroed, ⟨[1, 2, 3], []⟩, []⟩

/-- C1 (code-bug evidence): identity-mapping the frame containing physical
address 0xb8000 with WRITABLE succeeds, but `translate` of virtual address
0xb8000 then returns 184 — the frame *number* 0xb8 plus the zero in-page
offset, because `translate` adds the offset to `frame.number` instead of to
the frame's base address — not the physical address 0xb8000 the
specification's scenario expects. -/
theorem translate_identity_scenario_eval :
    (identity_map c1State 100 (PhysicalPage.containing 0xb8000) WRITABLE).1 =
      Except.ok () ∧
    translate (identity_map c1State 100
        (PhysicalPage.containing 0xb8000) WRITABLE).2.mem 100 0xb8000 =
      some 184 ∧
    (184 : Nat) ≠ 0xb8000 := by
  refine ⟨rfl, rfl, by decide⟩

theorem Memory.writeEntry_apply (m : Memory) (f i : Nat) (e : Entry)
    (g j : Nat) :
    (m.writeEntry f i e) g j =
      if g = f then (if j = i then e else m f j) else m g j := by
  unfold Memory.writeEntry Memory.writeTable Table.setEntry
  by_cases h : g = f <;> simp [h]

theorem Memory.writeEntry_apply_table_ne (m : Memory) (f i : Nat) (e : Entry)
    (g : Nat) (h : g ≠ f) : (m.writeEntry f i e) g = m g := by
  unfold Memory.writeEntry Memory.writeTable
  simp [h]

theorem Memory.writeTable_apply (m : Memory) (f : Nat) (t : Table) (g : Nat) :
    (m.writeTable f t) g = if g = f then t else m g := by
  unfold Memory.writeTable
  by_cases h : g = f <;> simp [h]

theorem next_table_eq_some {m : Memory} {tf i f : Nat} :
    next_table m tf i = some f ↔
      (m tf i).flags.present = true ∧ (m tf i).flags.huge = false ∧
        (m tf i).frame = f := by
  unfold next_table
  by_cases hp : (m tf i).flags.present = true
  · by_cases hh : (m tf i).flags.huge = true
    · simp [hp, hh]
    · simp only [Bool.not_eq_true] at hh
      simp [hp, hh]
  · simp only [Bool.not_eq_true] at hp
    simp [hp]

theorem next_table_eq_none {m : Memory} {tf i : Nat} :
    next_table m tf i = none ↔
      ((m tf i).flags.present = true → (m tf i).flags.huge = true) := by
  unfold next_table
  by_cases hp : (m tf i).flags.present = true
  · by_cases hh : (m tf i).flags.huge = true
    · simp [hp, hh]
    · simp only [Bool.not_eq_true] at hh
      simp [hp, hh]
  · simp only [Bool.not_eq_true] at hp
    simp [hp]

theorem walk3_eq_some {m : Memory} {root : Nat} {p : VirtualPage} {ptF : Nat} :
    walk3 m root p = some ptF ↔
      ∃ f1 f2, next_table m root p.pml4_index = some f1 ∧
        next_table m f1 p.pdpt_index = some f2 ∧
        next_table m f2 p.pd_index = some ptF := by
  unfold walk3
  cases h1 : next_table m root p.pml4_index with
  | none => simp [h1]
  | some f1 =>
    cases h2 : next_table m f1 p.pdpt_index with
    | none => simp [h2]
    | some f2 => simp [h2]

/-- A present, non-huge directory entry makes `create_next` return the
existing sub-table without touching the state. -/
theorem create_next_of_next_table {ms : MapperState} {tf i f : Nat}
    {page : VirtualPage} (h : next_table ms.mem tf i = some f) :
    create_next ms tf i page = (Except.ok f, ms) := by
  rw [next_table_eq_some] at h
  unfold create_next
  simp [h.1, h.2.1, h.2.2]

/-- C7: `unmap` fails with exactly two error kinds — the huge-page error when
a directory level on the path is absent, the not-mapped error when the path
exists but the leaf entry holds no frame — and succeeds whenever the path
exists and the leaf entry points to a frame. -/
theorem unmap_error_kinds (ms : MapperState) (root : Nat) (p : VirtualPage) :
    (walk3 ms.mem root p = none →
      (unmap ms root p).1 =
        Except.error (MapErr.other ("unmap") p ("huge pages not supported"))) ∧
    (∀ ptF, walk3 ms.mem root p = some ptF →
      (ms.mem ptF p.pt_index).get_frame = none →
      (unmap ms root p).1 =
        Except.error (MapErr.other ("unmap") p ("it was not mapped"))) ∧
    (∀ ptF F, walk3 ms.mem root p = some ptF →
      (ms.mem ptF p.pt_index).get_frame = some F →
      (unmap ms root p).1 = Except.ok ()) := by
  refine ⟨fun h => ?_, fun ptF h hf => ?_, fun ptF F h hf => ?_⟩
  · unfold unmap
    simp [h]
  · unfold unmap
    simp [h, hf]
  · unfold unmap
    simp [h, hf]

/-- C7 witness: the three branches at concrete states.  The first state has
no directories at all, the second a built path with an unused leaf, the
third a built path with a mapped leaf. -/
theorem unmap_error_kinds_witness :
    (unmap ⟨fun _ => Table.zeroed, ⟨[], []⟩, []⟩ 0 ⟨5⟩).1 =
      Except.error (MapErr.other ("unmap") ⟨5⟩ ("huge pages not supported")) ∧
    (unmap ⟨fun f => fun i =>
        if f = 0 ∧ i = 0 then Entry.set 1 ⟨true, true, false⟩
        else if f = 1 ∧ i = 0 then Entry.set 2 ⟨true, true, false⟩
        else if f = 2 ∧ i = 0 then Entry.set 3 ⟨true, true, false⟩
        else Entry.cleared, ⟨[], []⟩, []⟩ 0 ⟨5⟩).1 =
      Except.error (MapErr.other ("unmap") ⟨5⟩ ("it was not mapped")) ∧
    (unmap ⟨fun f => fun i =>
        if f = 0 ∧ i = 0 then Entry.set 1 ⟨true, true, false⟩
        else if f = 1 ∧ i = 0 then Entry.set 2 ⟨true, true, false⟩
        else if f = 2 ∧ i = 0 then Entry.set 3 ⟨true, true, false⟩
        else if f = 3 ∧ i = 5 then Entry.set 9 ⟨true, true, false⟩
        else Entry.cleared, ⟨[], []⟩, []⟩ 0 ⟨5⟩).1 = Except.ok () := by
  refine ⟨(unmap_error_kinds _ 0 ⟨5⟩).1 (by decide),
    (unmap_error_kinds _ 0 ⟨5⟩).2.1 3 (by decide) (by decide),
    (unmap_error_kinds _ 0 ⟨5⟩).2.2 3 9 (by decide) (by decide)⟩

/-- C10: whenever `unmap` returns an error, the whole state is unchanged —
no page-table entry is modified, no TLB invalidation is recorded, and the
allocator is untouched. -/
theorem unmap_error_state_unchanged (ms : MapperState) (root : Nat)
    (p : VirtualPage) (e : MapErr) :
    (unmap ms root p).1 = Except.error e → (unmap ms root p).2 = ms := by
  unfold unmap
  cases h : walk3 ms.mem root p with
  | none => simp
  | some ptF =>
    cases hf : (ms.mem ptF p.pt_index).get_frame with
    | none => simp [hf]
    | some F => simp [hf]

/-- C10 witness: at a state with no built directories, `unmap` errors and
returns the state unchanged. -/
theorem unmap_error_state_unchanged_witness :
    (unmap ⟨fun _ => Table.zeroed, ⟨[4], [7]⟩, [TlbFlush.all]⟩ 0 ⟨5⟩).2 =
      (⟨fun _ => Table.zeroed, ⟨[4], [7]⟩, [TlbFlush.all]⟩ : MapperState) :=
  unmap_error_state_unchanged _ 0 ⟨5⟩
    (MapErr.other ("unmap") ⟨5⟩ ("huge pages not supported")) rfl

/-- C3: when the leaf-level entry for a page is already in use, `map` returns
the `AlreadyInUse` error and leaves the entire state — in particular the
existing leaf entry's frame and flags — unchanged; it never overwrites an
in-use entry. -/
theorem map_already_in_use (ms : MapperState) (root : Nat) (p : VirtualPage)
    (F : PhysicalPage) (L : EntryFlags) (ptF : Nat)
    (hw : walk3 ms.mem root p = some ptF)
    (hu : (ms.mem ptF p.pt_index).is_unused = false) :
    (map ms root p F L).1 =
      Except.error (MapErr.alreadyInUse ("map frame") p F) ∧
    (map ms root p F L).2 = ms := by
  rw [walk3_eq_some] at hw
  obtain ⟨f1, f2, h1, h2, h3⟩ := hw
  unfold map
  simp [create_next_of_next_table h1, create_next_of_next_table h2,
    create_next_of_next_table h3, hu]

/-- C3 witness: mapping page 5 over an already-mapped leaf entry at a
concrete state errors with `AlreadyInUse` and changes nothing. -/
theorem map_already_in_use_witness :
    (map ⟨fun f => fun i =>
        if f = 0 ∧ i = 0 then Entry.set 1 ⟨true, true, false⟩
        else if f = 1 ∧ i = 0 then Entry.set 2 ⟨true, true, false⟩
        else if f = 2 ∧ i = 0 then Entry.set 3 ⟨true, true, false⟩
        else if f = 3 ∧ i = 5 then Entry.set 9 ⟨true, true, false⟩
        else Entry.cleared, ⟨[11], []⟩, []⟩ 0 ⟨5⟩ ⟨42⟩ WRITABLE).1 =
      Except.error (MapErr.alreadyInUse ("map frame") ⟨5⟩ ⟨42⟩) :=
  (map_already_in_use _ 0 ⟨5⟩ ⟨42⟩ WRITABLE 3 (by decide) (by decide)).1

theorem Memory.writeEntry_read (m : Memory) (f i : Nat) (e : Entry)
    (g j : Nat) :
    (m.writeEntry f i e) g j = if g = f ∧ j = i then e else m g j := by
  rw [Memory.writeEntry_apply]
  by_cases h : g = f
  · by_cases h2 : j = i <;> simp [h, h2]
  · simp [h]

theorem Entry.cleared_get_frame : Entry.cleared.get_frame = none := rfl

theorem Entry.cleared_do_huge (o : Nat) : Entry.cleared.do_huge o = none := rfl

theorem Entry.cleared_present : Entry.cleared.flags.present = false := rfl

theorem Entry.cleared_huge : Entry.cleared.flags.huge = false := rfl

theorem Entry.do_huge_of_not_huge {e : Entry} (h : e.flags.huge = false)
    (o : Nat) : e.do_huge o = none := by
  unfold Entry.do_huge
  simp [h]

/-- Clearing the leaf entry of a fully built path makes `translate_page`
return no frame, whatever aliasing exists between the table frames. -/
theorem translate_page_none_after_clear {m : Memory} {root : Nat}
    {p : VirtualPage} {f1 f2 f3 : Nat}
    (h1 : next_table m root p.pml4_index = some f1)
    (h2 : next_table m f1 p.pdpt_index = some f2)
    (h3 : next_table m f2 p.pd_index = some f3) :
    translate_page (m.writeEntry f3 p.pt_index Entry.cleared) root p = none := by
  rw [next_table_eq_some] at h1 h2 h3
  obtain ⟨hp1, hh1, hf1⟩ := h1
  obtain ⟨hp2, hh2, hf2⟩ := h2
  obtain ⟨hp3, hh3, hf3⟩ := h3
  by_cases c1 : root = f3 ∧ p.pml4_index = p.pt_index
  · have n1 : next_table (m.writeEntry f3 p.pt_index Entry.cleared) root
        p.pml4_index = none := by
      rw [next_table_eq_none, Memory.writeEntry_read]
      simp [c1, Entry.cleared]
    unfold translate_page
    simp [n1, Option.orElse]
  · have r1 : (m.writeEntry f3 p.pt_index Entry.cleared) root p.pml4_index =
        m root p.pml4_index := by
      rw [Memory.writeEntry_read]; simp [c1]
    have n1 : next_table (m.writeEntry f3 p.pt_index Entry.cleared) root
        p.pml4_index = some f1 := by
      rw [next_table_eq_some, r1]; exact ⟨hp1, hh1, hf1⟩
    by_cases c2 : f1 = f3 ∧ p.pdpt_index = p.pt_index
    · have r2 : (m.writeEntry f3 p.pt_index Entry.cleared) f1 p.pdpt_index =
          Entry.cleared := by
        rw [Memory.writeEntry_read]; simp [c2]
      have n2 : next_table (m.writeEntry f3 p.pt_index Entry.cleared) f1
          p.pdpt_index = none := by
        rw [next_table_eq_none, r2]; simp [Entry.cleared]
      unfold translate_page
      simp [n1, n2, r2, Entry.cleared_do_huge, Option.orElse]
    · have r2 : (m.writeEntry f3 p.pt_index Entry.cleared) f1 p.pdpt_index =
          m f1 p.pdpt_index := by
        rw [Memory.writeEntry_read]; simp [c2]
      have n2 : next_table (m.writeEntry f3 p.pt_index Entry.cleared) f1
          p.pdpt_index = some f2 := by
        rw [next_table_eq_some, r2]; exact ⟨hp2, hh2, hf2⟩
      by_cases c3 : f2 = f3 ∧ p.pd_index = p.pt_index
      · have r3 : (m.writeEntry f3 p.pt_index Entry.cleared) f2 p.pd_index =
            Entry.cleared := by
          rw [Memory.writeEntry_read]; simp [c3]
        have n3 : next_table (m.writeEntry f3 p.pt_index Entry.cleared) f2
            p.pd_index = none := by
          rw [next_table_eq_none, r3]; simp [Entry.cleared]
        have d2 : (m f1 p.pdpt_index).do_huge (p.pd_index + p.pt_index) =
            none := Entry.do_huge_of_not_huge hh2 _
        unfold translate_page
        simp [n1, n2, n3, r2, r3, d2, Entry.cleared_do_huge, Option.orElse]
      · have r3 : (m.writeEntry f3 p.pt_index Entry.cleared) f2 p.pd_index =
            m f2 p.pd_index := by
          rw [Memory.writeEntry_read]; simp [c3]
        have n3 : next_table (m.writeEntry f3 p.pt_index Entry.cleared) f2
            p.pd_index = some f3 := by
          rw [next_table_eq_some, r3]; exact ⟨hp3, hh3, hf3⟩
        have r4 : (m.writeEntry f3 p.pt_index Entry.cleared) f3 p.pt_index =
            Entry.cleared := by
          rw [Memory.writeEntry_read]; simp
        have d2 : (m f1 p.pdpt_index).do_huge (p.pd_index + p.pt_index) =
            none := Entry.do_huge_of_not_huge hh2 _
        have d3 : (m f2 p.pd_index).do_huge p.pt_index = none :=
          Entry.do_huge_of_not_huge hh3 _
        unfold translate_page
        simp [n1, n2, n3, r2, r3, r4, d2, d3, Entry.cleared_get_frame,
          Option.orElse]

/-- C4: when the leaf entry of a page is in use and maps frame `F`, `unmap`
succeeds, marks the leaf entry unused, records exactly one TLB invalidation
for the page, passes `F` to the allocator's `deallocate` exactly once, and a
subsequent `translate_page` for the page returns no mapping. -/
theorem unmap_success_effects (ms : MapperState) (root : Nat)
    (p : VirtualPage) (ptF F : Nat)
    (hw : walk3 ms.mem root p = some ptF)
    (hf : (ms.mem ptF p.pt_index).get_frame = some F) :
    (unmap ms root p).1 = Except.ok () ∧
    (unmap ms root p).2.mem ptF p.pt_index = Entry.cleared ∧
    (unmap ms root p).2.tlb = ms.tlb ++ [TlbFlush.page p] ∧
    (unmap ms root p).2.alloc.deallocs = ms.alloc.deallocs ++ [F] ∧
    (unmap ms root p).2.alloc.free = ms.alloc.free ∧
    translate_page (unmap ms root p).2.mem root p = none := by
  have hw1 := hw
  rw [walk3_eq_some] at hw1
  obtain ⟨f1, f2, h1, h2, h3⟩ := hw1
  have hstate : unmap ms root p =
      (Except.ok (),
        ⟨ms.mem.writeEntry ptF p.pt_index Entry.cleared,
          ms.alloc.deallocate F, ms.tlb ++ [TlbFlush.page p]⟩) := by
    unfold unmap
    simp [hw, hf]
  rw [hstate]
  refine ⟨rfl, ?_, rfl, rfl, rfl, ?_⟩
  · show (ms.mem.writeEntry ptF p.pt_index Entry.cleared) ptF p.pt_index = _
    rw [Memory.writeEntry_read]; simp
  · exact translate_page_none_after_clear h1 h2 h3

/-- C4 witness: unmapping page 5 at a concrete state with a built path and a
mapped leaf succeeds with all the claimed effects. -/
theorem unmap_success_effects_witness :
    (unmap ⟨fun f => fun i =>
        if f = 0 ∧ i = 0 then Entry.set 1 ⟨true, true, false⟩
        else if f = 1 ∧ i = 0 then Entry.set 2 ⟨true, true, false⟩
        else if f = 2 ∧ i = 0 then Entry.set 3 ⟨true, true, false⟩
        else if f = 3 ∧ i = 5 then Entry.set 9 ⟨true, true, false⟩
        else Entry.cleared, ⟨[4], [8]⟩, [TlbFlush.all]⟩ 0 ⟨5⟩).1 =
      Except.ok () ∧
    (unmap ⟨fun f => fun i =>
        if f = 0 ∧ i = 0 then Entry.set 1 ⟨true, true, false⟩
        else if f = 1 ∧ i = 0 then Entry.set 2 ⟨true, true, false⟩
        else if f = 2 ∧ i = 0 then Entry.set 3 ⟨true, true, false⟩
        else if f = 3 ∧ i = 5 then Entry.set 9 ⟨true, true, false⟩
        else Entry.cleared, ⟨[4], [8]⟩, [TlbFlush.all]⟩ 0 ⟨5⟩).2.alloc.deallocs =
      [8, 9] ∧
    translate_page (unmap ⟨fun f => fun i =>
        if f = 0 ∧ i = 0 then Entry.set 1 ⟨true, true, false⟩
        else if f = 1 ∧ i = 0 then Entry.set 2 ⟨true, true, false⟩
        else if f = 2 ∧ i = 0 then Entry.set 3 ⟨true, true, false⟩
        else if f = 3 ∧ i = 5 then Entry.set 9 ⟨true, true, false⟩
        else Entry.cleared, ⟨[4], [8]⟩, [TlbFlush.all]⟩ 0 ⟨5⟩).2.mem 0 ⟨5⟩ =
      none := by
  have h := unmap_success_effects ⟨fun f => fun i =>
      if f = 0 ∧ i = 0 then Entry.set 1 ⟨true, true, false⟩
      else if f = 1 ∧ i = 0 then Entry.set 2 ⟨true, true, false⟩
      else if f = 2 ∧ i = 0 then Entry.set 3 ⟨true, true, false⟩
      else if f = 3 ∧ i = 5 then Entry.set 9 ⟨true, true, false⟩
      else Entry.cleared, ⟨[4], [8]⟩, [TlbFlush.all]⟩ 0 ⟨5⟩ 3 9
      (by decide) (by decide)
  exact ⟨h.1, h.2.2.2.1, h.2.2.2.2.2⟩

/-- C6: when a PDPT-level directory entry is present and marked huge,
`translate_page` does not descend further but returns the frame computed
from the huge entry's start frame plus the residual PD and PT indices; when
a PD-level entry is present and marked huge, it returns the start frame plus
the residual PT index. -/
theorem translate_page_huge (m : Memory) (root : Nat) (p : VirtualPage)
    (f1 : Nat) (h1 : next_table m root p.pml4_index = some f1) :
    ((m f1 p.pdpt_index).flags.present = true →
      (m f1 p.pdpt_index).flags.huge = true →
      translate_page m root p =
        some ((m f1 p.pdpt_index).frame + (p.pd_index + p.pt_index))) ∧
    (∀ f2, next_table m f1 p.pdpt_index = some f2 →
      (m f2 p.pd_index).flags.present = true →
      (m f2 p.pd_index).flags.huge = true →
      translate_page m root p =
        some ((m f2 p.pd_index).frame + p.pt_index)) := by
  constructor
  · intro hp hh
    have n2 : next_table m f1 p.pdpt_index = none := by
      rw [next_table_eq_none]; intro _; exact hh
    unfold translate_page
    simp [h1, n2, Entry.do_huge, Entry.get_frame, hp, hh, Option.orElse]
  · intro f2 h2 hp hh
    have hh2 : (m f1 p.pdpt_index).flags.huge = false :=
      (next_table_eq_some.mp h2).2.1
    have n3 : next_table m f2 p.pd_index = none := by
      rw [next_table_eq_none]; intro _; exact hh
    unfold translate_page
    simp [h1, h2, n3, Entry.do_huge, Entry.get_frame, hp, hh, hh2,
      Option.orElse]

/-- C6 witness: a huge PDPT entry at start frame 7 translates page 5 to
frame 12 = 7 + 0 + 5, and a huge PD entry at start frame 9 translates page
5 to frame 14 = 9 + 5. -/
theorem translate_page_huge_witness :
    translate_page (fun f => fun i =>
        if f = 0 ∧ i = 0 then Entry.set 1 ⟨true, true, false⟩
        else if f = 1 ∧ i = 0 then Entry.set 7 ⟨true, false, true⟩
        else Entry.cleared) 0 ⟨5⟩ = some 12 ∧
    translate_page (fun f => fun i =>
        if f = 0 ∧ i = 0 then Entry.set 1 ⟨true, true, false⟩
        else if f = 1 ∧ i = 0 then Entry.set 2 ⟨true, true, false⟩
        else if f = 2 ∧ i = 0 then Entry.set 9 ⟨true, false, true⟩
        else Entry.cleared) 0 ⟨5⟩ = some 14 := by
  constructor
  · exact (translate_page_huge (fun f => fun i =>
        if f = 0 ∧ i = 0 then Entry.set 1 ⟨true, true, false⟩
        else if f = 1 ∧ i = 0 then Entry.set 7 ⟨true, false, true⟩
        else Entry.cleared) 0 ⟨5⟩ 1 (by decide)).1 (by decide) (by decide)
  · exact (translate_page_huge (fun f => fun i =>
        if f = 0 ∧ i = 0 then Entry.set 1 ⟨true, true, false⟩
        else if f = 1 ∧ i = 0 then Entry.set 2 ⟨true, true, false⟩
        else if f = 2 ∧ i = 0 then Entry.set 9 ⟨true, false, true⟩
        else Entry.cleared) 0 ⟨5⟩ 1 (by decide)).2 2 (by decide) (by decide)
      (by decide)

theorem FrameAllocator.allocate_some {a : FrameAllocator} {f : Nat}
    {a1 : FrameAllocator} (h : a.allocate = some (f, a1)) :
    a.free = f :: a1.free ∧ a1.deallocs = a.deallocs := by
  unfold FrameAllocator.allocate at h
  cases hf : a.free with
  | nil => rw [hf] at h; cases h
  | cons x xs =>
    rw [hf] at h
    simp only [Option.some.injEq, Prod.mk.injEq] at h
    obtain ⟨hx, ha⟩ := h
    subst hx
    rw [← ha]
    exact ⟨rfl, rfl⟩

theorem Entry.present_false_of_is_unused {e : Entry} (h : e.is_unused = true) :
    e.flags.present = false := by
  unfold Entry.is_unused at h
  simp only [decide_eq_true_eq] at h
  rw [h]
  rfl

/-- `create_next` never modifies a present entry of a frame outside the
allocator's free list, and its resulting free list is a subset of the
original one. -/
theorem create_next_preserves (ms : MapperState) (tf i : Nat)
    (page : VirtualPage) :
    (∀ g j, (ms.mem g j).flags.present = true → g ∉ ms.alloc.free →
      (create_next ms tf i page).2.mem g j = ms.mem g j) ∧
    (∀ x, x ∈ (create_next ms tf i page).2.alloc.free →
      x ∈ ms.alloc.free) := by
  unfold create_next
  by_cases hc : ((ms.mem tf i).flags.present && !(ms.mem tf i).flags.huge) = true
  · simp [hc]
  · by_cases hh : (ms.mem tf i).flags.huge = true
    · simp [hc, hh]
    · have hhf : (ms.mem tf i).flags.huge = false := by
        cases h' : (ms.mem tf i).flags.huge
        · rfl
        · exact absurd h' hh
      have hpf : (ms.mem tf i).flags.present = false := by
        rw [hhf] at hc
        cases h' : (ms.mem tf i).flags.present
        · rfl
        · rw [h'] at hc; simp at hc
      cases hal : ms.alloc.allocate with
      | none => simp [hpf, hhf, hal]
      | some pr =>
        obtain ⟨f, alloc1⟩ := pr
        obtain ⟨hfree, _⟩ := FrameAllocator.allocate_some hal
        simp only [hpf, hhf, hal, Bool.false_and, Bool.false_eq_true,
          if_false, ite_false]
        constructor
        · intro g j hp hg
          have hgf : g ≠ f := by
            intro hgf
            exact hg (by rw [hgf, hfree]; exact List.mem_cons_self _ _)
          rw [Memory.writeTable_apply]
          simp only [hgf, if_false, ite_false]
          rw [Memory.writeEntry_read]
          by_cases hgt : g = tf ∧ j = i
          · exfalso
            rw [hgt.1, hgt.2] at hp
            rw [hpf] at hp
            cases hp
          · simp [hgt]
        · intro x hx
          have hx1 : x ∈ alloc1.free := hx
          rw [hfree]
          exact List.mem_cons_of_mem _ hx1

/-- `map` never modifies a present entry of a frame outside the allocator's
free list (whether it succeeds or fails), and it only consumes frames from
the free list. -/
theorem map_preserves (ms : MapperState) (root : Nat) (page : VirtualPage)
    (F : PhysicalPage) (L : EntryFlags) :
    (∀ g j, (ms.mem g j).flags.present = true → g ∉ ms.alloc.free →
      (map ms root page F L).2.mem g j = ms.mem g j) ∧
    (∀ x, x ∈ (map ms root page F L).2.alloc.free → x ∈ ms.alloc.free) := by
  unfold map
  have P1 := create_next_preserves ms root page.pml4_index page
  cases h1 : create_next ms root page.pml4_index page with
  | mk r1 ms1 =>
    rw [h1] at P1
    cases r1 with
    | error e => simpa using P1
    | ok pdptF =>
      have P2 := create_next_preserves ms1 pdptF page.pdpt_index page
      cases h2 : create_next ms1 pdptF page.pdpt_index page with
      | mk r2 ms2 =>
        rw [h2] at P2
        have C12 : (∀ g j, (ms.mem g j).flags.present = true →
            g ∉ ms.alloc.free → ms2.mem g j = ms.mem g j) ∧
            (∀ x, x ∈ ms2.alloc.free → x ∈ ms.alloc.free) := by
          constructor
          · intro g j hp hg
            have e1 := P1.1 g j hp hg
            have hg1 : g ∉ ms1.alloc.free := fun hmem => hg (P1.2 g hmem)
            have e2 := P2.1 g j (by rw [e1]; exact hp) hg1
            rw [e2, e1]
          · intro x hx
            exact P1.2 x (P2.2 x hx)
        cases r2 with
        | error e => simpa [h2] using C12
        | ok pdF =>
          have P3 := create_next_preserves ms2 pdF page.pd_index page
          cases h3 : create_next ms2 pdF page.pd_index page with
          | mk r3 ms3 =>
            rw [h3] at P3
            have C13 : (∀ g j, (ms.mem g j).flags.present = true →
                g ∉ ms.alloc.free → ms3.mem g j = ms.mem g j) ∧
                (∀ x, x ∈ ms3.alloc.free → x ∈ ms.alloc.free) := by
              constructor
              · intro g j hp hg
                have e1 := C12.1 g j hp hg
                have hg1 : g ∉ ms2.alloc.free := fun hmem => hg (C12.2 g hmem)
                have e2 := P3.1 g j (by rw [e1]; exact hp) hg1
                rw [e2, e1]
              · intro x hx
                exact C12.2 x (P3.2 x hx)
            cases r3 with
            | error e => simpa [h2, h3] using C13
            | ok ptF =>
              simp only [h2, h3]
              by_cases hu : (ms3.mem ptF page.pt_index).is_unused = true
              · rw [if_pos hu]
                constructor
                · intro g j hp hg
                  show (ms3.mem.writeEntry ptF page.pt_index
                      (Entry.set F.number L.withPresent)) g j = ms.mem g j
                  rw [Memory.writeEntry_read]
                  by_cases hgt : g = ptF ∧ j = page.pt_index
                  · exfalso
                    have e3 := C13.1 g j hp hg
                    have hpf := Entry.present_false_of_is_unused hu
                    rw [← hgt.1, ← hgt.2, e3, hp] at hpf
                    cases hpf
                  · simp only [hgt, if_false, ite_false]
                    exact C13.1 g j hp hg
                · intro x hx
                  exact C13.2 x hx
              · rw [if_neg hu]
                exact C13

/-- `unmap` only ever writes the leaf slot at the page's PT index: every
entry at a different index is left unchanged, whether `unmap` succeeds or
fails. -/
theorem unmap_preserves_other_index (ms : MapperState) (root : Nat)
    (p : VirtualPage) (g j : Nat) (hj : j ≠ p.pt_index) :
    (unmap ms root p).2.mem g j = ms.mem g j := by
  unfold unmap
  cases hw : walk3 ms.mem root p with
  | none => rfl
  | some ptF =>
    cases hf : (ms.mem ptF p.pt_index).get_frame with
    | none => simp [hf]
    | some F =>
      simp only [hf]
      show (ms.mem.writeEntry ptF p.pt_index Entry.cleared) g j = ms.mem g j
      rw [Memory.writeEntry_read]
      simp [hj]

/-- `unmap` leaves the allocator's free list unchanged. -/
theorem unmap_preserves_free (ms : MapperState) (root : Nat)
    (p : VirtualPage) :
    (unmap ms root p).2.alloc.free = ms.alloc.free := by
  unfold unmap
  cases hw : walk3 ms.mem root p with
  | none => rfl
  | some ptF =>
    cases hf : (ms.mem ptF p.pt_index).get_frame with
    | none => simp [hf]
    | some F => simp [hf, FrameAllocator.deallocate]

/-- A successful `unmap` leaves the page untranslatable. -/
theorem unmap_ok_translate_none (ms : MapperState) (root : Nat)
    (p : VirtualPage) (h : (unmap ms root p).1 = Except.ok ()) :
    translate_page (unmap ms root p).2.mem root p = none := by
  unfold unmap at h ⊢
  cases hw : walk3 ms.mem root p with
  | none => simp [hw] at h
  | some ptF =>
    cases hf : (ms.mem ptF p.pt_index).get_frame with
    | none => simp [hw, hf] at h
    | some F =>
      simp only [hw, hf]
      show translate_page (ms.mem.writeEntry ptF p.pt_index Entry.cleared)
        root p = none
      rw [walk3_eq_some] at hw
      obtain ⟨f1, f2, h1, h2, h3⟩ := hw
      exact translate_page_none_after_clear h1 h2 h3

/-- C5: after every completed `using` redirection — whatever the closure
does and whether it or the final temporary-page unbind returns success or an
error — the originally active top-level table's self-referential slot 511
again holds exactly the entry it held before the call, pointing at that
table's own frame. -/
theorem using_restores_selfref (ms : MapperState) (cr3 newFrame : Nat)
    (temp : VirtualPage)
    (f : MapperState → Except MapErr Unit × MapperState)
    (hself : ms.mem cr3 511 = Entry.set cr3 ⟨true, true, false⟩)
    (htemp : temp.pt_index ≠ 511)
    (hcr3 : cr3 ∉ ms.alloc.free) :
    (usingTable ms cr3 newFrame temp f).2.mem cr3 511 = ms.mem cr3 511 ∧
    ((usingTable ms cr3 newFrame temp f).2.mem cr3 511).frame = cr3 := by
  have hframe : (ms.mem cr3 511).frame = cr3 := by rw [hself]; rfl
  have hpres : (ms.mem cr3 511).flags.present = true := by rw [hself]; rfl
  suffices hsuff :
      (usingTable ms cr3 newFrame temp f).2.mem cr3 511 = ms.mem cr3 511 by
    refine ⟨hsuff, ?_⟩
    rw [hsuff, hself]
    rfl
  unfold usingTable
  have P := map_preserves ms (recResolve ms.mem cr3) temp ⟨cr3⟩ WRITABLE
  cases hm : map ms (recResolve ms.mem cr3) temp ⟨cr3⟩ WRITABLE with
  | mk r1 ms1 =>
    rw [hm] at P
    have hkeep1 : ms1.mem cr3 511 = ms.mem cr3 511 := P.1 cr3 511 hpres hcr3
    cases r1 with
    | error e => simp only [hm]; exact hkeep1
    | ok u =>
      simp only [hm]
      set ms2 : MapperState :=
        ⟨ms1.mem.writeEntry (recResolve ms1.mem cr3) 511
           (Entry.set newFrame ⟨true, true, false⟩),
         ms1.alloc, ms1.tlb ++ [TlbFlush.all]⟩ with hms2
      set ms3 := (f ms2).2 with hms3
      set ms4 : MapperState :=
        ⟨ms3.mem.writeEntry cr3 511 (Entry.set cr3 ⟨true, true, false⟩),
         ms3.alloc, ms3.tlb ++ [TlbFlush.all]⟩ with hms4
      have hkeep4 : ms4.mem cr3 511 = ms.mem cr3 511 := by
        rw [hms4]
        show (ms3.mem.writeEntry cr3 511
          (Entry.set cr3 ⟨true, true, false⟩)) cr3 511 = ms.mem cr3 511
        rw [Memory.writeEntry_read]
        simp [hself]
      have hu := unmap_preserves_other_index ms4
        (recResolve ms4.mem cr3) temp cr3 511 (fun hc => htemp hc.symm)
      cases hq : unmap ms4 (recResolve ms4.mem cr3) temp with
      | mk r5 ms5 =>
        rw [hq] at hu
        cases r5 with
        | error e => simp only [hq]; exact hu.trans hkeep4
        | ok u5 => simp only [hq]; exact hu.trans hkeep4

/-- C5 witness: a concrete `using` call (with an inert closure) around an
active table at frame 2 whose slot 511 is self-referential; the slot is
restored exactly. -/
theorem using_restores_selfref_witness :
    (usingTable ⟨fun g => fun i =>
        if g = 2 ∧ i = 511 then Entry.set 2 ⟨true, true, false⟩
        else Entry.cleared, ⟨[3, 4, 5], []⟩, []⟩ 2 9 ⟨7⟩
        (fun s => (Except.ok (), s))).2.mem 2 511 =
      Entry.set 2 ⟨true, true, false⟩ ∧
    ((usingTable ⟨fun g => fun i =>
        if g = 2 ∧ i = 511 then Entry.set 2 ⟨true, true, false⟩
        else Entry.cleared, ⟨[3, 4, 5], []⟩, []⟩ 2 9 ⟨7⟩
        (fun s => (Except.ok (), s))).2.mem 2 511).frame = 2 := by
  have h := using_restores_selfref ⟨fun g => fun i =>
      if g = 2 ∧ i = 511 then Entry.set 2 ⟨true, true, false⟩
      else Entry.cleared, ⟨[3, 4, 5], []⟩, []⟩ 2 9 ⟨7⟩
      (fun s => (Except.ok (), s)) (by decide) (by decide) (by decide)
  exact ⟨h.1.trans (by decide), h.2⟩

/-- C8: `kernel_remap` is fail-fast — if any step of the build phase before
the table switch fails, the procedure returns that error and the base-table
register still holds the original frame (`replace_with` is never reached);
and when `kernel_remap` succeeds, the page covering the old top-level
table's frame is unmapped (a guard page) in the new address space. -/
theorem kernel_remap_fail_fast (params : InitParams) (cr3 : Nat)
    (ms : MapperState) :
    (∀ e : MapErr, (kernel_remap_build params cr3 ms).1 = Except.error e →
      kernel_remap params cr3 ms =
        (Except.error e, cr3, (kernel_remap_build params cr3 ms).2)) ∧
    ((kernel_remap params cr3 ms).1 = Except.ok () →
      translate_page (kernel_remap params cr3 ms).2.2.mem
        (recResolve (kernel_remap_build params cr3 ms).2.mem
          (kernel_remap params cr3 ms).2.1)
        (VirtualPage.containing (cr3 * PAGE_SIZE)) = none) := by
  constructor
  · intro e he
    unfold kernel_remap
    cases hb : kernel_remap_build params cr3 ms with
    | mk rb msb =>
      rw [hb] at he
      simp only [] at he
      cases rb with
      | error e2 =>
        have he2 : e2 = e := by
          injection he
        subst he2
        simp only [hb]
      | ok nf => cases he
  · intro hok
    unfold kernel_remap at hok ⊢
    cases hb : kernel_remap_build params cr3 ms with
    | mk rb msb =>
      simp only [hb] at hok ⊢
      cases rb with
      | error e => cases hok
      | ok nf =>
        cases hq : unmap msb (recResolve msb.mem nf)
            (VirtualPage.containing (cr3 * PAGE_SIZE)) with
        | mk rq msq =>
          simp only [hq] at hok ⊢
          cases rq with
          | error e => cases hok
          | ok u =>
            cases u
            have ht := unmap_ok_translate_none msb (recResolve msb.mem nf)
              (VirtualPage.containing (cr3 * PAGE_SIZE)) (by rw [hq])
            rw [hq] at ht
            exact ht

/-- C8 witness: with an exhausted allocator the build phase fails at the very
first allocation, `kernel_remap` returns exactly that error with the
base-table register untouched; and a concrete successful run (active table
at frame 30, seven free frames, one aligned section) leaves the old table's
page untranslatable. -/
theorem kernel_remap_fail_fast_witness :
    kernel_remap ⟨[], 0, 0⟩ 30 ⟨fun _ => Table.zeroed, ⟨[], []⟩, []⟩ =
      (Except.error (MapErr.alloc ("create the new page table")
          ⟨TEMP_PAGE_NUMBER⟩), 30,
        (kernel_remap_build ⟨[], 0, 0⟩ 30
          ⟨fun _ => Table.zeroed, ⟨[], []⟩, []⟩).2) ∧
    translate_page (kernel_remap ⟨[⟨0x1e000, 0x1f000, true, true⟩], 0x2000,
        0x2000⟩ 30 ⟨fun g => fun i =>
          if g = 30 ∧ i = 511 then Entry.set 30 ⟨true, true, false⟩
          else Entry.cleared, ⟨[50, 51, 52, 53, 54, 55, 56], []⟩, []⟩).2.2.mem
      (recResolve (kernel_remap_build ⟨[⟨0x1e000, 0x1f000, true, true⟩],
          0x2000, 0x2000⟩ 30 ⟨fun g => fun i =>
          if g = 30 ∧ i = 511 then Entry.set 30 ⟨true, true, false⟩
          else Entry.cleared, ⟨[50, 51, 52, 53, 54, 55, 56], []⟩, []⟩).2.mem
        (kernel_remap ⟨[⟨0x1e000, 0x1f000, true, true⟩], 0x2000, 0x2000⟩ 30
          ⟨fun g => fun i =>
            if g = 30 ∧ i = 511 then Entry.set 30 ⟨true, true, false⟩
            else Entry.cleared, ⟨[50, 51, 52, 53, 54, 55, 56], []⟩,
            []⟩).2.1)
      (VirtualPage.containing (30 * PAGE_SIZE)) = none := by
  constructor
  · exact (kernel_remap_fail_fast ⟨[], 0, 0⟩ 30
      ⟨fun _ => Table.zeroed, ⟨[], []⟩, []⟩).1
      (MapErr.alloc ("create the new page table") ⟨TEMP_PAGE_NUMBER⟩) rfl
  · exact (kernel_remap_fail_fast ⟨[⟨0x1e000, 0x1f000, true, true⟩], 0x2000,
      0x2000⟩ 30 ⟨fun g => fun i =>
        if g = 30 ∧ i = 511 then Entry.set 30 ⟨true, true, false⟩
        else Entry.cleared, ⟨[50, 51, 52, 53, 54, 55, 56], []⟩, []⟩).2 rfl

theorem count_filterMap_update {l : List Nat} {f g : Nat → Option Nat}
    {x : Nat} (hl : l.Nodup) (hx : x ∈ l)
    (hfg : ∀ y ∈ l, y ≠ x → f y = g y) (a : Nat) :
    (l.filterMap g).count a + (if f x = some a then 1 else 0) =
    (l.filterMap f).count a + (if g x = some a then 1 else 0) := by
  induction l with
  | nil => cases hx
  | cons y ys ih =>
    rw [List.filterMap_cons, List.filterMap_cons]
    rcases List.mem_cons.mp hx with h | hxy
    · subst h
      have hnot : x ∉ ys := (List.nodup_cons.mp hl).1
      have heq : ys.filterMap f = ys.filterMap g :=
        List.filterMap_congr (fun z hz =>
          hfg z (List.mem_cons_of_mem _ hz)
            (fun hzx => hnot (hzx ▸ hz)))
      cases hf : f x with
      | none =>
        cases hg : g x with
        | none => simp [heq]
        | some b =>
          by_cases hb : b = a <;>
            simp [heq, List.count_cons, hb]
      | some b =>
        cases hg : g x with
        | none =>
          by_cases hb : b = a <;>
            simp [heq, List.count_cons, hb]
        | some c =>
          by_cases hb : b = a <;> by_cases hc : c = a <;>
            simp [heq, List.count_cons, hb, hc]
    · have hyx : y ≠ x := by
        rintro rfl
        exact ((List.nodup_cons.mp hl).1 hxy).elim
      have hfy : f y = g y := hfg y (List.mem_cons_self _ _) hyx
      have ihh := ih (List.nodup_cons.mp hl).2 hxy
        (fun z hz hzx => hfg z (List.mem_cons_of_mem _ hz) hzx)
      rw [hfy]
      cases hg : g y with
      | none => exact ihh
      | some b =>
        by_cases hb : b = a <;> simp [List.count_cons, hb] <;> omega

theorem count_filterMap_two {l : List Nat} {f : Nat → Option Nat}
    {i j c : Nat} (hl : l.Nodup) (hi : i ∈ l) (hj : j ∈ l) (hij : i ≠ j)
    (hfi : f i = some c) (hfj : f j = some c) :
    2 ≤ (l.filterMap f).count c := by
  induction l with
  | nil => cases hi
  | cons y ys ih =>
    rw [List.filterMap_cons]
    rcases List.mem_cons.mp hi with h | hiy
    · subst h
      have hjy : j ∈ ys := by
        rcases List.mem_cons.mp hj with h | h
        · exact absurd h.symm hij
        · exact h
      rw [hfi]
      have hmem : c ∈ ys.filterMap f :=
        List.mem_filterMap.mpr ⟨j, hjy, hfj⟩
      have h1 : 1 ≤ (ys.filterMap f).count c := List.count_pos_iff.mpr hmem
      rw [List.count_cons_self]
      omega
    · rcases List.mem_cons.mp hj with h | hjy
      · subst h
        rw [hfj]
        have hmem : c ∈ ys.filterMap f :=
          List.mem_filterMap.mpr ⟨i, hiy, hfi⟩
        have h1 : 1 ≤ (ys.filterMap f).count c := List.count_pos_iff.mpr hmem
        rw [List.count_cons_self]
        omega
      · have ihh := ih (List.nodup_cons.mp hl).2 hiy hjy
        cases hy : f y with
        | none => exact ihh
        | some b =>
          have : 2 ≤ (ys.filterMap f).count c := ihh
          rw [List.count_cons]
          omega

theorem mem_sum_le {l : List Nat} {F : Nat → Nat} {x : Nat} (hx : x ∈ l) :
    F x ≤ (l.map F).sum := by
  induction l with
  | nil => cases hx
  | cons y ys ih =>
    rcases List.mem_cons.mp hx with h | h
    · subst h
      simp
    · have := ih h
      simp
      omega

theorem two_mem_sum_le {l : List Nat} {F : Nat → Nat} {x y : Nat}
    (hx : x ∈ l) (hy : y ∈ l) (hxy : x ≠ y) :
    F x + F y ≤ (l.map F).sum := by
  induction l with
  | nil => cases hx
  | cons z zs ih =>
    rcases List.mem_cons.mp hx with h | hxz
    · subst h
      have hyz : y ∈ zs := by
        rcases List.mem_cons.mp hy with h | h
        · exact absurd h.symm hxy
        · exact h
      have := mem_sum_le (F := F) hyz
      simp
      omega
    · rcases List.mem_cons.mp hy with h | hyz
      · subst h
        have := mem_sum_le (F := F) hxz
        simp
        omega
      · have := ih hxz hyz
        simp
        omega

theorem sum_map_update_single {l : List Nat} {F G : Nat → Nat} {x d : Nat}
    (hcount : l.count x = 1) (hne : ∀ y ∈ l, y ≠ x → G y = F y)
    (hx : G x = F x + d) :
    (l.map G).sum = (l.map F).sum + d := by
  induction l with
  | nil => simp at hcount
  | cons y ys ih =>
    by_cases hyx : y = x
    · subst hyx
      have hys : y ∉ ys := by
        rw [List.count_cons_self] at hcount
        have : ys.count y = 0 := by omega
        exact List.count_eq_zero.mp this
      have heq : ys.map G = ys.map F :=
        List.map_congr_left (fun z hz => hne z (List.mem_cons_of_mem _ hz)
          (fun hzx => hys (hzx ▸ hz)))
      simp [heq, hx]
      omega
    · have hcy : ys.count x = 1 := by
        rw [List.count_cons] at hcount
        simpa [hyx] using hcount
      have hGy : G y = F y := hne y (List.mem_cons_self _ _) hyx
      have ihh := ih hcy (fun z hz hzx => hne z (List.mem_cons_of_mem _ hz) hzx)
      simp [hGy, ihh]
      omega

theorem next_table_congr {m1 m2 : Memory} {tf j : Nat}
    (h : m1 tf j = m2 tf j) : next_table m1 tf j = next_table m2 tf j := by
  unfold next_table
  rw [h]

theorem mem_childFrames {m : Memory} {tf c a : Nat} :
    a ∈ childFrames m tf c ↔ ∃ i, i < c ∧ next_table m tf i = some a := by
  unfold childFrames
  rw [List.mem_filterMap]
  constructor
  · rintro ⟨i, hi, hni⟩
    exact ⟨i, List.mem_range.mp hi, hni⟩
  · rintro ⟨i, hi, hni⟩
    exact ⟨i, List.mem_range.mpr hi, hni⟩

theorem childFrames_congr {m1 m2 : Memory} {tf : Nat}
    (h : ∀ j, m1 tf j = m2 tf j) (c : Nat) :
    childFrames m1 tf c = childFrames m2 tf c := by
  unfold childFrames
  exact List.filterMap_congr (fun j _ => next_table_congr (h j))

theorem childFrames_of_table_eq {m1 m2 : Memory} {tf : Nat}
    (h : m1 tf = m2 tf) (c : Nat) : childFrames m1 tf c = childFrames m2 tf c :=
  childFrames_congr (fun j => by rw [h]) c

theorem childFrames_zeroed {m : Memory} {tf : Nat}
    (h : ∀ j, m tf j = Entry.cleared) (c : Nat) : childFrames m tf c = [] := by
  unfold childFrames
  have hall : ∀ j ∈ List.range c, next_table m tf j =
      (fun _ : Nat => (none : Option Nat)) j := by
    intro j _
    show next_table m tf j = none
    rw [next_table_eq_none, h j]
    intro hp
    cases hp
  rw [List.filterMap_congr hall]
  simp

theorem count_childFrames_writeEntry (m : Memory) (tf : Nat) {i c : Nat}
    (e : Entry) (hi : i < c) (a : Nat) :
    (childFrames (m.writeEntry tf i e) tf c).count a +
      (if next_table m tf i = some a then 1 else 0) =
    (childFrames m tf c).count a +
      (if next_table (m.writeEntry tf i e) tf i = some a then 1 else 0) := by
  unfold childFrames
  exact count_filterMap_update (List.nodup_range _) (List.mem_range.mpr hi)
    (fun y _ hy => (next_table_congr (by
      rw [Memory.writeEntry_read]
      simp [hy])).symm) a

theorem mem_levelList_of_next_table {m : Memory} {root tf i f k : Nat}
    (htf : tf ∈ levelList m root k) (hi : i < levelBound k)
    (hn : next_table m tf i = some f) :
    f ∈ levelList m root (k + 1) := by
  show f ∈ (levelList m root k).flatMap (fun g => childFrames m g (levelBound k))
  rw [List.mem_flatMap]
  exact ⟨tf, htf, mem_childFrames.mpr ⟨i, hi, hn⟩⟩

theorem mem_tableFrames_of_level {m : Memory} {root a j : Nat} (hj : j ≤ 3)
    (ha : a ∈ levelList m root j) : a ∈ tableFrames m root := by
  unfold tableFrames
  interval_cases j <;> simp [ha]

theorem count_level_le (m : Memory) (root : Nat) {j : Nat} (hj : j ≤ 3)
    (b : Nat) :
    (levelList m root j).count b ≤ (tableFrames m root).count b := by
  unfold tableFrames
  interval_cases j <;> simp [List.count_append] <;> omega

theorem level_distinct {m : Memory} {root : Nat} (hwf : TreeWF m root)
    {j k a : Nat} (hj : j ≤ 3) (hk : k ≤ 3) (hjk : j ≠ k)
    (haj : a ∈ levelList m root j) (hak : a ∈ levelList m root k) :
    False := by
  have hc := (List.nodup_iff_count_le_one.mp hwf) a
  have h1 : 1 ≤ (levelList m root j).count a := List.count_pos_iff.mpr haj
  have h2 : 1 ≤ (levelList m root k).count a := List.count_pos_iff.mpr hak
  unfold tableFrames at hc
  simp only [List.count_append] at hc
  interval_cases j <;> interval_cases k <;> omega

/-- The memory after `create_next` allocates frame `f` for a new sub-table
below `tf`: the written entry plus the zero-filled fresh table. -/
def createWrite (m : Memory) (tf i f : Nat) : Memory :=
  (m.writeEntry tf i (Entry.set f ⟨true, true, false⟩)).writeTable f
    Table.zeroed

/-- Allocating a fresh sub-table below a level-`k` table adds exactly one
occurrence of the fresh frame, at level `k + 1`, to the level lists. -/
theorem create_write_count {m : Memory} {root tf i f k : Nat}
    (hwf : TreeWF m root) (hk : k ≤ 2) (htf : tf ∈ levelList m root k)
    (hi : i < levelBound k) (hn : next_table m tf i = none)
    (hf : f ∉ tableFrames m root) :
    ∀ j, j ≤ 3 → ∀ b,
      (levelList (createWrite m tf i f) root j).count b =
      (levelList m root j).count b +
        (if j = k + 1 ∧ b = f then 1 else 0) := by
  have htff : tf ≠ f := by
    intro h
    exact hf (h ▸ mem_tableFrames_of_level (by omega) htf)
  have hm'tf : (createWrite m tf i f) tf =
      (m tf).setEntry i (Entry.set f ⟨true, true, false⟩) := by
    unfold createWrite Memory.writeEntry
    rw [Memory.writeTable_apply]
    simp only [htff, if_false, ite_false]
    rw [Memory.writeTable_apply]
    simp
  have hm'f : (createWrite m tf i f) f = Table.zeroed := by
    unfold createWrite
    rw [Memory.writeTable_apply]
    simp
  have hm'g : ∀ g, g ≠ tf → g ≠ f → (createWrite m tf i f) g = m g := by
    intro g hgtf hgf
    unfold createWrite Memory.writeEntry
    rw [Memory.writeTable_apply]
    simp only [hgf, if_false, ite_false]
    rw [Memory.writeTable_apply]
    simp [hgtf]
  have hcf_g : ∀ g, g ≠ tf → g ≠ f → ∀ c,
      childFrames (createWrite m tf i f) g c = childFrames m g c :=
    fun g h1 h2 c => childFrames_of_table_eq (hm'g g h1 h2) c
  have hcf_f : ∀ c, childFrames (createWrite m tf i f) f c = [] :=
    fun c => childFrames_zeroed (fun j => by rw [hm'f]; rfl) c
  have hcf_tf : ∀ b,
      (childFrames (createWrite m tf i f) tf (levelBound k)).count b =
      (childFrames m tf (levelBound k)).count b +
        (if b = f then 1 else 0) := by
    intro b
    have htab : (createWrite m tf i f) tf =
        (m.writeEntry tf i (Entry.set f ⟨true, true, false⟩)) tf := by
      rw [hm'tf]
      unfold Memory.writeEntry
      rw [Memory.writeTable_apply]
      simp
    rw [childFrames_of_table_eq htab (levelBound k)]
    have hcount := count_childFrames_writeEntry
      m tf (Entry.set f ⟨true, true, false⟩) hi b
    rw [hn] at hcount
    have hread : (m.writeEntry tf i (Entry.set f ⟨true, true, false⟩)) tf i =
        Entry.set f ⟨true, true, false⟩ := by
      rw [Memory.writeEntry_read]
      simp
    have hnt' : next_table (m.writeEntry tf i
        (Entry.set f ⟨true, true, false⟩)) tf i = some f := by
      rw [next_table_eq_some, hread]
      exact ⟨rfl, rfl, rfl⟩
    rw [hnt'] at hcount
    by_cases hb : b = f
    · subst hb
      simp at hcount ⊢
      omega
    · have : ¬(some f = some b) := by
        intro hc
        exact hb (Option.some.injEq _ _ ▸ hc).symm
      simp [this, hb] at hcount ⊢
      omega
  have hfnotin : ∀ j, j ≤ 3 → f ∉ levelList m root j :=
    fun j hj hmem => hf (mem_tableFrames_of_level hj hmem)
  have htfnotin : ∀ j, j ≤ 3 → j ≠ k → tf ∉ levelList m root j :=
    fun j hj hjk hmem =>
      (level_distinct hwf hj (by omega) hjk hmem htf).elim
  have htfcount : (levelList m root k).count tf = 1 := by
    have h1 : 1 ≤ (levelList m root k).count tf := List.count_pos_iff.mpr htf
    have h2 : (levelList m root k).count tf ≤ 1 := by
      have := count_level_le m root (show k ≤ 3 by omega) tf
      have hc := (List.nodup_iff_count_le_one.mp hwf) tf
      omega
    omega
  intro j
  induction j with
  | zero =>
    intro _ b
    have h0 : ¬(0 = k + 1 ∧ b = f) := by
      rintro ⟨h, _⟩
      omega
    simp [levelList, h0]
  | succ j ih =>
    intro hj3 b
    have hj : j ≤ 3 := by omega
    have ihj := ih hj
    show ((levelList (createWrite m tf i f) root j).flatMap
      (fun g => childFrames (createWrite m tf i f) g (levelBound j))).count b
        = _
    rw [List.count_flatMap]
    have hperm : List.Perm (levelList (createWrite m tf i f) root j)
        (levelList m root j ++ (if j = k + 1 then [f] else [])) := by
      rw [List.perm_iff_count]
      intro c
      rw [List.count_append, ihj c]
      by_cases hjk : j = k + 1
      · by_cases hcf : c = f
        · subst hcf
          simp [hjk]
        · simp [hjk, hcf]
      · simp [hjk]
    have hsum := (hperm.map
      ((fun l => l.count b) ∘
        (fun g => childFrames (createWrite m tf i f) g (levelBound j)))).sum_eq
    have hstep1 : (List.map ((fun l => l.count b) ∘
        (fun g => childFrames (createWrite m tf i f) g (levelBound j)))
          (levelList (createWrite m tf i f) root j)).sum =
        (List.map ((fun l => l.count b) ∘
          (fun g => childFrames (createWrite m tf i f) g (levelBound j)))
          (levelList m root j)).sum := by
      rw [hsum, List.map_append, List.sum_append]
      by_cases hjk : j = k + 1
      · simp [hjk, Function.comp, hcf_f]
      · simp [hjk]
    have hmain : (List.map ((fun l => l.count b) ∘
        (fun g => childFrames (createWrite m tf i f) g (levelBound j)))
          (levelList m root j)).sum =
        (List.map ((fun l => l.count b) ∘
          (fun g => childFrames m g (levelBound j)))
          (levelList m root j)).sum +
        (if j = k ∧ b = f then 1 else 0) := by
      by_cases hjk : j = k
      · subst hjk
        have := sum_map_update_single
          (l := levelList m root j)
          (F := (fun l => l.count b) ∘
            (fun g => childFrames m g (levelBound j)))
          (G := (fun l => l.count b) ∘
            (fun g => childFrames (createWrite m tf i f) g (levelBound j)))
          (x := tf) (d := if b = f then 1 else 0)
          htfcount
          (fun y hy hytf => by
            have hyf : y ≠ f := fun hc => hfnotin j hj (hc ▸ hy)
            simp only [Function.comp]
            rw [hcf_g y hytf hyf (levelBound j)])
          (by simp only [Function.comp]; exact hcf_tf b)
        rw [this]
        by_cases hbf : b = f <;> simp [hbf]
      · have heq : List.map ((fun l => l.count b) ∘
            (fun g => childFrames (createWrite m tf i f) g (levelBound j)))
              (levelList m root j) =
            List.map ((fun l => l.count b) ∘
              (fun g => childFrames m g (levelBound j)))
              (levelList m root j) := by
          apply List.map_congr_left
          intro y hy
          have hytf : y ≠ tf := fun hc => htfnotin j hj hjk (hc ▸ hy)
          have hyf : y ≠ f := fun hc => hfnotin j hj (hc ▸ hy)
          simp only [Function.comp]
          rw [hcf_g y hytf hyf (levelBound j)]
        rw [heq]
        simp [hjk]
    rw [hstep1, hmain]
    show _ = ((levelList m root j).flatMap
      (fun g => childFrames m g (levelBound j))).count b + _
    rw [List.count_flatMap]
    by_cases hjk : j = k
    · subst hjk
      by_cases hbf : b = f <;> simp [hbf]
    · have h1 : ¬(j + 1 = k + 1 ∧ b = f) := by
        rintro ⟨h, _⟩
        omega
      simp [hjk, h1]

theorem create_write_total_count {m : Memory} {root tf i f k : Nat}
    (hwf : TreeWF m root) (hk : k ≤ 2) (htf : tf ∈ levelList m root k)
    (hi : i < levelBound k) (hn : next_table m tf i = none)
    (hf : f ∉ tableFrames m root) :
    ∀ b, (tableFrames (createWrite m tf i f) root).count b =
      (tableFrames m root).count b + (if b = f then 1 else 0) := by
  intro b
  have E0 := create_write_count hwf hk htf hi hn hf 0 (by omega) b
  have E1 := create_write_count hwf hk htf hi hn hf 1 (by omega) b
  have E2 := create_write_count hwf hk htf hi hn hf 2 (by omega) b
  have E3 := create_write_count hwf hk htf hi hn hf 3 (by omega) b
  unfold tableFrames
  simp only [List.count_append]
  interval_cases k <;> by_cases hbf : b = f <;>
    simp [hbf] at E0 E1 E2 E3 ⊢ <;> omega

/-- Step package for `create_next` at a level-`k` directory table: tree
well-formedness and allocator freshness are preserved, and on success the
returned frame is the sub-table one level down. -/
theorem create_next_step (ms : MapperState) (root tf i : Nat)
    (page : VirtualPage) (k : Nat) (hk : k ≤ 2) (hi : i < levelBound k)
    (htf : tf ∈ levelList ms.mem root k) (hwf : TreeWF ms.mem root)
    (hff : FreshFree ms.mem root ms.alloc.free) :
    TreeWF (create_next ms tf i page).2.mem root ∧
    FreshFree (create_next ms tf i page).2.mem root
      (create_next ms tf i page).2.alloc.free ∧
    (∀ f, (create_next ms tf i page).1 = Except.ok f →
      next_table (create_next ms tf i page).2.mem tf i = some f ∧
      f ∈ levelList (create_next ms tf i page).2.mem root (k + 1)) := by
  unfold create_next
  by_cases hc : ((ms.mem tf i).flags.present && !(ms.mem tf i).flags.huge) = true
  · simp only [hc, if_true, ite_true]
    refine ⟨hwf, hff, ?_⟩
    intro f hok
    have hf : (ms.mem tf i).frame = f := by
      injection hok
    have hnext : next_table ms.mem tf i = some f := by
      rw [next_table_eq_some]
      simp only [Bool.and_eq_true, Bool.not_eq_true'] at hc
      exact ⟨hc.1, hc.2, hf⟩
    exact ⟨hnext, mem_levelList_of_next_table htf hi hnext⟩
  · by_cases hh : (ms.mem tf i).flags.huge = true
    · rw [if_neg hc, if_pos hh]
      exact ⟨hwf, hff, fun f hok => by cases hok⟩
    · have hhf : (ms.mem tf i).flags.huge = false := by
        cases h' : (ms.mem tf i).flags.huge
        · rfl
        · exact absurd h' hh
      have hpf : (ms.mem tf i).flags.present = false := by
        rw [hhf] at hc
        cases h' : (ms.mem tf i).flags.present
        · rfl
        · rw [h'] at hc; simp at hc
      have hn : next_table ms.mem tf i = none := by
        rw [next_table_eq_none, hpf]
        intro h
        cases h
      cases hal : ms.alloc.allocate with
      | none =>
        rw [if_neg hc, if_neg hh]
        simp only [hal]
        exact ⟨hwf, hff, fun f hok => by cases hok⟩
      | some pr =>
        obtain ⟨f, alloc1⟩ := pr
        obtain ⟨hfree, _⟩ := FrameAllocator.allocate_some hal
        have hfmem : f ∈ ms.alloc.free := by
          rw [hfree]
          exact List.mem_cons_self _ _
        have hfnot : f ∉ tableFrames ms.mem root := hff.2 f hfmem
        have htff : tf ≠ f := by
          intro h
          exact hfnot (h ▸ mem_tableFrames_of_level (by omega) htf)
        have htot := create_write_total_count hwf hk htf hi hn hfnot
        rw [if_neg hc, if_neg hh]
        simp only [hal]
        have hshow : ((ms.mem.writeEntry tf i
            (Entry.set f ⟨true, true, false⟩)).writeTable f Table.zeroed) =
            createWrite ms.mem tf i f := rfl
        rw [hshow]
        refine ⟨?_, ?_, ?_⟩
        · rw [TreeWF, List.nodup_iff_count_le_one]
          intro a
          rw [htot a]
          have hle := (List.nodup_iff_count_le_one.mp hwf) a
          by_cases haf : a = f
          · subst haf
            have h0 : (tableFrames ms.mem root).count a = 0 :=
              List.count_eq_zero.mpr hfnot
            rw [if_pos rfl]
            omega
          · rw [if_neg haf]
            omega
        · constructor
          · have := hff.1
            rw [hfree] at this
            exact (List.nodup_cons.mp this).2
          · intro x hx
            have hxmem : x ∈ ms.alloc.free := by
              rw [hfree]
              exact List.mem_cons_of_mem _ hx
            have hxf : x ≠ f := by
              intro h
              have hnd := hff.1
              rw [hfree] at hnd
              rw [h] at hx
              exact (List.nodup_cons.mp hnd).1 hx
            intro hcon
            have h1 : 1 ≤ (tableFrames (createWrite ms.mem tf i f)
                root).count x := List.count_pos_iff.mpr hcon
            rw [htot x] at h1
            have h0 : (tableFrames ms.mem root).count x = 0 :=
              List.count_eq_zero.mpr (hff.2 x hxmem)
            rw [if_neg hxf] at h1
            omega
        · intro f2 hok
          have hf2 : f2 = f := by
            injection hok with h
            exact h.symm
          rw [hf2]
          have hread : (createWrite ms.mem tf i f) tf i =
              Entry.set f ⟨true, true, false⟩ := by
            unfold createWrite Memory.writeEntry
            rw [Memory.writeTable_apply]
            simp only [htff, if_false, ite_false]
            rw [Memory.writeTable_apply]
            simp [Table.setEntry]
          have hnext : next_table (createWrite ms.mem tf i f) tf i =
              some f := by
            rw [next_table_eq_some, hread]
            exact ⟨rfl, rfl, rfl⟩
          refine ⟨hnext, ?_⟩
          have htf' : tf ∈ levelList (createWrite ms.mem tf i f) root k := by
            have hck := create_write_count hwf hk htf hi hn hfnot k
              (by omega) tf
            have hck2 : ¬(k = k + 1 ∧ tf = f) := by
              rintro ⟨h, _⟩
              omega
            rw [if_neg hck2, Nat.add_zero] at hck
            have h1 : 1 ≤ (levelList ms.mem root k).count tf :=
              List.count_pos_iff.mpr htf
            exact List.count_pos_iff.mp (by omega)
          exact mem_levelList_of_next_table htf' hi hnext

theorem levelList_eq_of_congr {m1 m2 : Memory} {root : Nat}
    (h : ∀ k, k ≤ 2 → ∀ g, g ∈ levelList m1 root k → m2 g = m1 g) :
    ∀ k, k ≤ 3 → levelList m2 root k = levelList m1 root k := by
  intro k
  induction k with
  | zero => intro _; rfl
  | succ k ih =>
    intro hk
    show (levelList m2 root k).flatMap
        (fun g => childFrames m2 g (levelBound k)) =
      (levelList m1 root k).flatMap (fun g => childFrames m1 g (levelBound k))
    rw [ih (by omega)]
    exact List.flatMap_congr (fun g hg =>
      childFrames_of_table_eq (h k (by omega) g hg) (levelBound k))

/-- Writing any entry of a leaf-level (depth 3) table leaves the level lists
of the hierarchy unchanged. -/
theorem write_l3_tables_eq {m : Memory} {root t i : Nat} {e : Entry}
    (hwf : TreeWF m root) (ht : t ∈ levelList m root 3) :
    tableFrames (m.writeEntry t i e) root = tableFrames m root := by
  have hcong : ∀ k, k ≤ 2 → ∀ g, g ∈ levelList m root k →
      (m.writeEntry t i e) g = m g := by
    intro k hk g hg
    have hgt : g ≠ t := by
      intro h
      exact level_distinct hwf (by omega) (by omega) (by omega) (h ▸ hg) ht
    exact Memory.writeEntry_apply_table_ne _ _ _ _ _ hgt
  have heq := levelList_eq_of_congr hcong
  unfold tableFrames
  rw [heq 0 (by omega), heq 1 (by omega), heq 2 (by omega), heq 3 (by omega)]

theorem not_free_of_mem_tables {m : Memory} {root : Nat} {free : List Nat}
    {a : Nat} (hff : FreshFree m root free) (hmem : a ∈ tableFrames m root) :
    a ∉ free :=
  fun h => hff.2 a h hmem

/-- In a tree-shaped hierarchy, a frame reachable as a sub-table has a
unique parent table and a unique parent slot. -/
theorem child_unique {m : Memory} {root k x y i j c : Nat}
    (hwf : TreeWF m root) (hk : k ≤ 2)
    (hx : x ∈ levelList m root k) (hy : y ∈ levelList m root k)
    (hi : i < levelBound k) (hj : j < levelBound k)
    (hci : next_table m x i = some c) (hcj : next_table m y j = some c) :
    x = y ∧ i = j := by
  have hcx : c ∈ childFrames m x (levelBound k) :=
    mem_childFrames.mpr ⟨i, hi, hci⟩
  have hcy : c ∈ childFrames m y (levelBound k) :=
    mem_childFrames.mpr ⟨j, hj, hcj⟩
  have hcl : c ∈ levelList m root (k + 1) :=
    mem_levelList_of_next_table hx hi hci
  have hle : (levelList m root (k + 1)).count c ≤ 1 := by
    have h1 := count_level_le m root (show k + 1 ≤ 3 by omega) c
    have h2 := (List.nodup_iff_count_le_one.mp hwf) c
    omega
  have hsum : (levelList m root (k + 1)).count c =
      (List.map ((fun l => l.count c) ∘
        (fun g => childFrames m g (levelBound k)))
        (levelList m root k)).sum := by
    show ((levelList m root k).flatMap
      (fun g => childFrames m g (levelBound k))).count c = _
    rw [List.count_flatMap]
  constructor
  · by_contra hxy
    have h2 := two_mem_sum_le
      (F := (fun l => l.count c) ∘
        (fun g => childFrames m g (levelBound k))) hx hy hxy
    have hfx : 1 ≤ ((fun l => l.count c) ∘
        (fun g => childFrames m g (levelBound k))) x :=
      List.count_pos_iff.mpr hcx
    have hfy : 1 ≤ ((fun l => l.count c) ∘
        (fun g => childFrames m g (levelBound k))) y :=
      List.count_pos_iff.mpr hcy
    omega
  · by_contra hij
    have h2 : 2 ≤ (childFrames m x (levelBound k)).count c := by
      have hxy : x = y := by
        by_contra hxy
        have h2 := two_mem_sum_le
          (F := (fun l => l.count c) ∘
            (fun g => childFrames m g (levelBound k))) hx hy hxy
        have hfx : 1 ≤ ((fun l => l.count c) ∘
            (fun g => childFrames m g (levelBound k))) x :=
          List.count_pos_iff.mpr hcx
        have hfy : 1 ≤ ((fun l => l.count c) ∘
            (fun g => childFrames m g (levelBound k))) y :=
          List.count_pos_iff.mpr hcy
        omega
      subst hxy
      exact count_filterMap_two (List.nodup_range _)
        (List.mem_range.mpr hi) (List.mem_range.mpr hj) hij hci hcj
    have h3 := mem_sum_le (F := (fun l => l.count c) ∘
      (fun g => childFrames m g (levelBound k))) hx
    have h4 : 2 ≤ ((fun l => l.count c) ∘
      (fun g => childFrames m g (levelBound k))) x := h2
    omega

theorem root_mem_level0 (m : Memory) (root : Nat) :
    root ∈ levelList m root 0 := by
  show root ∈ [root]
  exact List.mem_singleton.mpr rfl

/-- Whatever `map` returns, tree well-formedness and allocator freshness are
preserved; and when it succeeds, the page's four-level path is built and its
leaf entry holds the requested frame. -/
theorem map_package (ms : MapperState) (root : Nat) (p : VirtualPage)
    (F : PhysicalPage) (L : EntryFlags)
    (hwf : TreeWF ms.mem root) (hff : FreshFree ms.mem root ms.alloc.free)
    (hp511 : p.pml4_index ≠ 511) :
    TreeWF (map ms root p F L).2.mem root ∧
    FreshFree (map ms root p F L).2.mem root
      (map ms root p F L).2.alloc.free ∧
    ((map ms root p F L).1 = Except.ok () →
      PathInv (map ms root p F L).2.mem root p F.number) := by
  have hp0 : p.pml4_index < levelBound 0 := by
    show p.pml4_index < 511
    have h := p.pml4_index_bound
    omega
  unfold map
  have S1 := create_next_step ms root root p.pml4_index p 0 (by omega)
    hp0 (root_mem_level0 _ _) hwf hff
  cases h1 : create_next ms root p.pml4_index p with
  | mk r1 ms1 =>
    rw [h1] at S1
    cases r1 with
    | error e =>
      simp only [h1]
      exact ⟨S1.1, S1.2.1, fun hok => by cases hok⟩
    | ok f1 =>
      simp only [h1]
      obtain ⟨hnt1, hf1mem⟩ := S1.2.2 f1 rfl
      have S2 := create_next_step ms1 root f1 p.pdpt_index p 1 (by omega)
        p.pdpt_index_bound hf1mem S1.1 S1.2.1
      cases h2 : create_next ms1 f1 p.pdpt_index p with
      | mk r2 ms2 =>
        rw [h2] at S2
        cases r2 with
        | error e =>
          simp only [h2]
          exact ⟨S2.1, S2.2.1, fun hok => by cases hok⟩
        | ok f2 =>
          simp only [h2]
          obtain ⟨hnt2, hf2mem⟩ := S2.2.2 f2 rfl
          have P2 := create_next_preserves ms1 f1 p.pdpt_index p
          rw [h2] at P2
          have hnt1a : next_table ms2.mem root p.pml4_index = some f1 := by
            refine (next_table_congr ?_).trans hnt1
            exact P2.1 root p.pml4_index (next_table_eq_some.mp hnt1).1
              (not_free_of_mem_tables S1.2.1
                (mem_tableFrames_of_level (by omega)
                  (root_mem_level0 ms1.mem root)))
          have S3 := create_next_step ms2 root f2 p.pd_index p 2 (by omega)
            p.pd_index_bound hf2mem S2.1 S2.2.1
          cases h3 : create_next ms2 f2 p.pd_index p with
          | mk r3 ms3 =>
            rw [h3] at S3
            cases r3 with
            | error e =>
              simp only [h3]
              exact ⟨S3.1, S3.2.1, fun hok => by cases hok⟩
            | ok f3 =>
              simp only [h3]
              obtain ⟨hnt3, _⟩ := S3.2.2 f3 rfl
              have P3 := create_next_preserves ms2 f2 p.pd_index p
              rw [h3] at P3
              have hnt1b : next_table ms3.mem root p.pml4_index = some f1 := by
                refine (next_table_congr ?_).trans hnt1a
                exact P3.1 root p.pml4_index (next_table_eq_some.mp hnt1a).1
                  (not_free_of_mem_tables S2.2.1
                    (mem_tableFrames_of_level (by omega)
                      (root_mem_level0 ms2.mem root)))
              have hf1mem2 : f1 ∈ levelList ms2.mem root 1 :=
                mem_levelList_of_next_table (root_mem_level0 _ _)
                  hp0 hnt1a
              have hnt2b : next_table ms3.mem f1 p.pdpt_index = some f2 := by
                refine (next_table_congr ?_).trans hnt2
                exact P3.1 f1 p.pdpt_index (next_table_eq_some.mp hnt2).1
                  (not_free_of_mem_tables S2.2.1
                    (mem_tableFrames_of_level (by omega) hf1mem2))
              have hf1mem3 : f1 ∈ levelList ms3.mem root 1 :=
                mem_levelList_of_next_table (root_mem_level0 _ _)
                  hp0 hnt1b
              have hf2mem3 : f2 ∈ levelList ms3.mem root 2 :=
                mem_levelList_of_next_table hf1mem3 p.pdpt_index_bound hnt2b
              have hf3mem3 : f3 ∈ levelList ms3.mem root 3 :=
                mem_levelList_of_next_table hf2mem3 p.pd_index_bound hnt3
              by_cases hu : (ms3.mem f3 p.pt_index).is_unused = true
              · rw [if_pos hu]
                have htfe := write_l3_tables_eq (t := f3) (i := p.pt_index)
                  (e := Entry.set F.number L.withPresent) S3.1 hf3mem3
                refine ⟨?_, ?_, ?_⟩
                · show TreeWF (ms3.mem.writeEntry f3 p.pt_index
                    (Entry.set F.number L.withPresent)) root
                  rw [TreeWF, htfe]
                  exact S3.1
                · refine ⟨S3.2.1.1, ?_⟩
                  intro x hx
                  show x ∉ tableFrames (ms3.mem.writeEntry f3 p.pt_index
                    (Entry.set F.number L.withPresent)) root
                  rw [htfe]
                  exact S3.2.1.2 x hx
                · intro _
                  have hne0 : root ≠ f3 := fun h =>
                    level_distinct S3.1 (by omega) (by omega) (by omega)
                      (root_mem_level0 ms3.mem root) (h.symm ▸ hf3mem3)
                  have hne1 : f1 ≠ f3 := fun h =>
                    level_distinct S3.1 (by omega) (by omega) (by omega)
                      hf1mem3 (h.symm ▸ hf3mem3)
                  have hne2 : f2 ≠ f3 := fun h =>
                    level_distinct S3.1 (by omega) (by omega) (by omega)
                      hf2mem3 (h.symm ▸ hf3mem3)
                  show PathInv (ms3.mem.writeEntry f3 p.pt_index
                    (Entry.set F.number L.withPresent)) root p F.number
                  refine ⟨f1, f2, f3, ?_, ?_, ?_, ?_, ?_⟩
                  · refine (next_table_congr ?_).trans hnt1b
                    rw [Memory.writeEntry_read]
                    simp [hne0]
                  · refine (next_table_congr ?_).trans hnt2b
                    rw [Memory.writeEntry_read]
                    simp [hne1]
                  · refine (next_table_congr ?_).trans hnt3
                    rw [Memory.writeEntry_read]
                    simp [hne2]
                  · show ((ms3.mem.writeEntry f3 p.pt_index
                      (Entry.set F.number L.withPresent)) f3
                        p.pt_index).flags.present = true
                    rw [Memory.writeEntry_read]
                    simp [Entry.set, EntryFlags.withPresent]
                  · show ((ms3.mem.writeEntry f3 p.pt_index
                      (Entry.set F.number L.withPresent)) f3
                        p.pt_index).frame = F.number
                    rw [Memory.writeEntry_read]
                    simp [Entry.set]
              · rw [if_neg hu]
                exact ⟨S3.1, S3.2.1, fun hok => by cases hok⟩

theorem translate_page_of_path {m : Memory} {root : Nat} {p : VirtualPage}
    {Fv : Nat} (h : PathInv m root p Fv) :
    translate_page m root p = some Fv := by
  obtain ⟨f1, f2, f3, h1, h2, h3, hp, hf⟩ := h
  have hleaf : (m f3 p.pt_index).get_frame = some Fv := by
    unfold Entry.get_frame
    rw [hp, hf]
    rfl
  unfold translate_page
  simp [h1, h2, h3, hleaf, Option.orElse]

/-- A built path of one page survives a `map` of any other arguments: `map`
writes only to unused or freshly allocated locations. -/
theorem map_step_preserves_path (ms : MapperState) (root : Nat)
    (q : VirtualPage) (G : PhysicalPage) (L : EntryFlags)
    (p : VirtualPage) (Fv : Nat)
    (hff : FreshFree ms.mem root ms.alloc.free)
    (hpath : PathInv ms.mem root p Fv)
    (hp511 : p.pml4_index ≠ 511) :
    PathInv (map ms root q G L).2.mem root p Fv := by
  have hp0 : p.pml4_index < levelBound 0 := by
    show p.pml4_index < 511
    have h := p.pml4_index_bound
    omega
  obtain ⟨f1, f2, f3, h1, h2, h3, hp4, hp5⟩ := hpath
  have hf1mem : f1 ∈ levelList ms.mem root 1 :=
    mem_levelList_of_next_table (root_mem_level0 _ _) hp0 h1
  have hf2mem : f2 ∈ levelList ms.mem root 2 :=
    mem_levelList_of_next_table hf1mem p.pdpt_index_bound h2
  have hf3mem : f3 ∈ levelList ms.mem root 3 :=
    mem_levelList_of_next_table hf2mem p.pd_index_bound h3
  have MP := map_preserves ms root q G L
  have e1 := MP.1 root p.pml4_index (next_table_eq_some.mp h1).1
    (not_free_of_mem_tables hff
      (mem_tableFrames_of_level (by omega) (root_mem_level0 _ _)))
  have e2 := MP.1 f1 p.pdpt_index (next_table_eq_some.mp h2).1
    (not_free_of_mem_tables hff (mem_tableFrames_of_level (by omega) hf1mem))
  have e3 := MP.1 f2 p.pd_index (next_table_eq_some.mp h3).1
    (not_free_of_mem_tables hff (mem_tableFrames_of_level (by omega) hf2mem))
  have e4 := MP.1 f3 p.pt_index hp4
    (not_free_of_mem_tables hff (mem_tableFrames_of_level (by omega) hf3mem))
  exact ⟨f1, f2, f3, (next_table_congr e1).trans h1,
    (next_table_congr e2).trans h2, (next_table_congr e3).trans h3,
    by rw [e4]; exact hp4, by rw [e4]; exact hp5⟩

/-- `unmap` preserves tree well-formedness and allocator freshness. -/
theorem unmap_package (ms : MapperState) (root : Nat) (q : VirtualPage)
    (hwf : TreeWF ms.mem root)
    (hff : FreshFree ms.mem root ms.alloc.free)
    (hq511 : q.pml4_index ≠ 511) :
    TreeWF (unmap ms root q).2.mem root ∧
    FreshFree (unmap ms root q).2.mem root
      (unmap ms root q).2.alloc.free := by
  have hq0 : q.pml4_index < levelBound 0 := by
    show q.pml4_index < 511
    have h := q.pml4_index_bound
    omega
  unfold unmap
  cases hw : walk3 ms.mem root q with
  | none => exact ⟨hwf, hff⟩
  | some T =>
    cases hf : (ms.mem T q.pt_index).get_frame with
    | none =>
      simp only [hf]
      exact ⟨hwf, hff⟩
    | some Fr =>
      simp only [hf]
      rw [walk3_eq_some] at hw
      obtain ⟨a1, a2, hq1, hq2, hq3⟩ := hw
      have ha1mem : a1 ∈ levelList ms.mem root 1 :=
        mem_levelList_of_next_table (root_mem_level0 _ _) hq0 hq1
      have ha2mem : a2 ∈ levelList ms.mem root 2 :=
        mem_levelList_of_next_table ha1mem q.pdpt_index_bound hq2
      have hT3 : T ∈ levelList ms.mem root 3 :=
        mem_levelList_of_next_table ha2mem q.pd_index_bound hq3
      have htfe := write_l3_tables_eq (t := T) (i := q.pt_index)
        (e := Entry.cleared) hwf hT3
      constructor
      · show TreeWF (ms.mem.writeEntry T q.pt_index Entry.cleared) root
        rw [TreeWF, htfe]
        exact hwf
      · refine ⟨hff.1, ?_⟩
        intro x hx
        show x ∉ tableFrames
          (ms.mem.writeEntry T q.pt_index Entry.cleared) root
        rw [htfe]
        exact hff.2 x hx

/-- A built path of page `p` survives an `unmap` of a different page `q`:
in a tree-shaped hierarchy the leaf slot `unmap` clears belongs to `q`
alone. -/
theorem unmap_step_preserves_path (ms : MapperState) (root : Nat)
    (q p : VirtualPage) (Fv : Nat)
    (hwf : TreeWF ms.mem root) (hpath : PathInv ms.mem root p Fv)
    (hqp : q ≠ p) (hbp : p.number < 2 ^ 36) (hbq : q.number < 2 ^ 36)
    (hp511 : p.pml4_index ≠ 511) (hq511 : q.pml4_index ≠ 511) :
    PathInv (unmap ms root q).2.mem root p Fv := by
  have hp0 : p.pml4_index < levelBound 0 := by
    show p.pml4_index < 511
    have h := p.pml4_index_bound
    omega
  have hq0 : q.pml4_index < levelBound 0 := by
    show q.pml4_index < 511
    have h := q.pml4_index_bound
    omega
  obtain ⟨f1, f2, f3, h1, h2, h3, hp4, hp5⟩ := hpath
  unfold unmap
  cases hw : walk3 ms.mem root q with
  | none => exact ⟨f1, f2, f3, h1, h2, h3, hp4, hp5⟩
  | some T =>
    cases hf : (ms.mem T q.pt_index).get_frame with
    | none =>
      simp only [hf]
      exact ⟨f1, f2, f3, h1, h2, h3, hp4, hp5⟩
    | some Fr =>
      simp only [hf]
      rw [walk3_eq_some] at hw
      obtain ⟨a1, a2, hq1, hq2, hq3⟩ := hw
      have hf1mem : f1 ∈ levelList ms.mem root 1 :=
        mem_levelList_of_next_table (root_mem_level0 _ _) hp0 h1
      have hf2mem : f2 ∈ levelList ms.mem root 2 :=
        mem_levelList_of_next_table hf1mem p.pdpt_index_bound h2
      have hf3mem : f3 ∈ levelList ms.mem root 3 :=
        mem_levelList_of_next_table hf2mem p.pd_index_bound h3
      have ha1mem : a1 ∈ levelList ms.mem root 1 :=
        mem_levelList_of_next_table (root_mem_level0 _ _) hq0 hq1
      have ha2mem : a2 ∈ levelList ms.mem root 2 :=
        mem_levelList_of_next_table ha1mem q.pdpt_index_bound hq2
      have hT3 : T ∈ levelList ms.mem root 3 :=
        mem_levelList_of_next_table ha2mem q.pd_index_bound hq3
      have hne0 : ¬(root = T ∧ p.pml4_index = q.pt_index) := by
        rintro ⟨h, _⟩
        exact level_distinct hwf (by omega) (by omega) (by omega)
          (root_mem_level0 ms.mem root) (h.symm ▸ hT3)
      have hne1 : ¬(f1 = T ∧ p.pdpt_index = q.pt_index) := by
        rintro ⟨h, _⟩
        exact level_distinct hwf (by omega) (by omega) (by omega)
          hf1mem (h.symm ▸ hT3)
      have hne2 : ¬(f2 = T ∧ p.pd_index = q.pt_index) := by
        rintro ⟨h, _⟩
        exact level_distinct hwf (by omega) (by omega) (by omega)
          hf2mem (h.symm ▸ hT3)
      have hne3 : ¬(f3 = T ∧ p.pt_index = q.pt_index) := by
        rintro ⟨hfT, hpq⟩
        have hq3f : next_table ms.mem a2 q.pd_index = some f3 :=
          hfT.symm ▸ hq3
        have hu2 := child_unique hwf (by omega) hf2mem ha2mem
          p.pd_index_bound q.pd_index_bound h3 hq3f
        have hq2f : next_table ms.mem a1 q.pdpt_index = some f2 :=
          hu2.1.symm ▸ hq2
        have hu1 := child_unique hwf (by omega) hf1mem ha1mem
          p.pdpt_index_bound q.pdpt_index_bound h2 hq2f
        have hq1f : next_table ms.mem root q.pml4_index = some f1 :=
          hu1.1.symm ▸ hq1
        have hu0 := child_unique hwf (by omega) (root_mem_level0 _ _)
          (root_mem_level0 _ _) hp0 hq0 h1 hq1f
        exact hqp (VirtualPage.eq_of_indices_eq hbq hbp hu0.2.symm
          hu1.2.symm hu2.2.symm hpq.symm)
      show PathInv (ms.mem.writeEntry T q.pt_index Entry.cleared)
        root p Fv
      have r0 : (ms.mem.writeEntry T q.pt_index Entry.cleared) root
          p.pml4_index = ms.mem root p.pml4_index := by
        rw [Memory.writeEntry_read, if_neg hne0]
      have r1 : (ms.mem.writeEntry T q.pt_index Entry.cleared) f1
          p.pdpt_index = ms.mem f1 p.pdpt_index := by
        rw [Memory.writeEntry_read, if_neg hne1]
      have r2 : (ms.mem.writeEntry T q.pt_index Entry.cleared) f2
          p.pd_index = ms.mem f2 p.pd_index := by
        rw [Memory.writeEntry_read, if_neg hne2]
      have r3 : (ms.mem.writeEntry T q.pt_index Entry.cleared) f3
          p.pt_index = ms.mem f3 p.pt_index := by
        rw [Memory.writeEntry_read, if_neg hne3]
      exact ⟨f1, f2, f3, (next_table_congr r0).trans h1,
        (next_table_congr r1).trans h2, (next_table_congr r2).trans h3,
        by rw [r3]; exact hp4, by rw [r3]; exact hp5⟩

/-- The three-part invariant — tree well-formedness outside the recursive
slot, allocator freshness and a built path for `p` — survives any sequence
of `map` and `unmap` operations whose pages are in canonical range, stay
outside the recursive PML4 slot 511, and that never unmap `p`. -/
theorem runOps_inv (root : Nat) (p : VirtualPage) (Fv : Nat)
    (hbp : p.number < 2 ^ 36) (hp511 : p.pml4_index ≠ 511) :
    ∀ (ops : List Op) (ms : MapperState),
      TreeWF ms.mem root → FreshFree ms.mem root ms.alloc.free →
      PathInv ms.mem root p Fv →
      (∀ op ∈ ops, (Op.page op).number < 2 ^ 36 ∧
        (Op.page op).pml4_index ≠ 511 ∧ op ≠ Op.unmap p) →
      TreeWF (runOps root ms ops).mem root ∧
      FreshFree (runOps root ms ops).mem root
        (runOps root ms ops).alloc.free ∧
      PathInv (runOps root ms ops).mem root p Fv := by
  intro ops
  induction ops with
  | nil =>
    intro ms hwf hff hpath _
    exact ⟨hwf, hff, hpath⟩
  | cons op rest ih =>
    intro ms hwf hff hpath hops
    have hop := hops op (List.mem_cons_self _ _)
    have hrest : ∀ op' ∈ rest,
        (Op.page op').number < 2 ^ 36 ∧
          (Op.page op').pml4_index ≠ 511 ∧ op' ≠ Op.unmap p :=
      fun op' h => hops op' (List.mem_cons_of_mem _ h)
    show TreeWF (runOps root (stepOp root ms op) rest).mem root ∧ _
    cases op with
    | map q G L =>
      have MK := map_package ms root q G L hwf hff hop.2.1
      exact ih ((map ms root q G L).2) MK.1 MK.2.1
        (map_step_preserves_path ms root q G L p Fv hff hpath hp511) hrest
    | unmap q =>
      have hqp : q ≠ p := by
        intro h
        exact hop.2.2 (by rw [h])
      have UK := unmap_package ms root q hwf hff hop.2.1
      exact ih ((unmap ms root q).2) UK.1 UK.2
        (unmap_step_preserves_path ms root q p Fv hwf hpath hqp hbp hop.1
          hp511 hop.2.1)
        hrest

/-- C2: if `map(p, F, L)` succeeds on a hierarchy that is tree-shaped
outside the root's recursive slot 511 and whose allocator hands out fresh
frames, then `translate_page(p)` returns `F`, and it keeps returning `F`
in every subsequent state produced by further `map` and `unmap` operations
(on canonical-range pages outside the recursive PML4 slot 511, which the
spec reserves for the self-reference) until `p` itself is unmapped. -/
theorem map_translate_page_roundtrip (ms : MapperState) (root : Nat)
    (p : VirtualPage) (F : PhysicalPage) (L : EntryFlags) (ops : List Op)
    (hwf : TreeWF ms.mem root)
    (hff : FreshFree ms.mem root ms.alloc.free)
    (hbp : p.number < 2 ^ 36) (hp511 : p.pml4_index ≠ 511)
    (hops : ∀ op ∈ ops, (Op.page op).number < 2 ^ 36 ∧
      (Op.page op).pml4_index ≠ 511 ∧ op ≠ Op.unmap p)
    (hok : (map ms root p F L).1 = Except.ok ()) :
    translate_page (runOps root (map ms root p F L).2 ops).mem root p =
      some F.number := by
  have MK := map_package ms root p F L hwf hff hp511
  have hinv := runOps_inv root p F.number hbp hp511 ops (map ms root p F L).2
    MK.1 MK.2.1 (MK.2.2 hok) hops
  exact translate_page_of_path hinv.2.2

/-- C2 witness: on an active hierarchy rooted at frame 10 whose root slot
511 holds the spec-mandated recursive self-reference and is otherwise
empty, with six fresh frames, map page 5 to frame 77, then map page 6 to
frame 88 and unmap page 6; page 5 still translates to frame 77. -/
theorem map_translate_page_roundtrip_witness :
    translate_page (runOps 10
      (map ⟨fun g i => if g = 10 ∧ i = 511 then Entry.set 10 ⟨true, true, false⟩
          else Entry.cleared, ⟨[1, 2, 3, 4, 5, 6], []⟩, []⟩ 10 ⟨5⟩ ⟨77⟩
        WRITABLE).2
      [Op.map ⟨6⟩ ⟨88⟩ PRESENT, Op.unmap ⟨6⟩]).mem 10 ⟨5⟩ = some 77 :=
  map_translate_page_roundtrip
    ⟨fun g i => if g = 10 ∧ i = 511 then Entry.set 10 ⟨true, true, false⟩
        else Entry.cleared, ⟨[1, 2, 3, 4, 5, 6], []⟩, []⟩ 10 ⟨5⟩ ⟨77⟩
    WRITABLE [Op.map ⟨6⟩ ⟨88⟩ PRESENT, Op.unmap ⟨6⟩]
    (by unfold TreeWF; decide) (by unfold FreshFree; decide) (by decide)
    (by decide) (by decide) rfl

end Paging
